import Mathlib

/-!
Verification of the battleship game core in `src/pages/Battleship.tsx`.

The board is a total function from (row, column) coordinates to cells, and a
fleet is the list of ship records in insertion order (the source stores them in
a `Record<number, Ship>` whose integer keys are assigned in ascending order, so
insertion order and iteration order coincide).  `Math.random()` draws are
modelled by an explicit stream `g : Nat → Bool × Nat × Nat`: attempt `k` of the
placement loop consumes the triple `g k` as (orientation draw, raw x draw, raw
y draw), and `Math.floor(Math.random() * K)` — a uniform value in `[0, K)` — is
modelled as the raw draw taken `% K`.  All record updates in the source are
copy-on-write on immutable snapshots, which a pure function models exactly;
`cloneBoard` (a per-cell copy) is therefore the identity on board values.
-/

/-- Cell record: `{ hasShip: boolean; hit: boolean; shipId?: number }`. -/
structure Cell where
  hasShip : Bool
  hit : Bool
  shipId : Option Nat
  deriving DecidableEq

/-- `type Board = Cell[][]`, accessed as `board[y][x]`. -/
abbrev Board := Nat → Nat → Cell

/-- `type Ship = { id: number; size: number; hits: number }`. -/
structure Ship where
  id : Nat
  size : Nat
  hits : Nat
  deriving DecidableEq

def BOARD_SIZE : Nat := 10

def SHIP_SIZES : List Nat := [4, 3, 3, 2, 2, 2, 1, 1, 1, 1]

def emptyCell : Cell := { hasShip := false, hit := false, shipId := none }

/-- `createEmptyBoard`: every cell `{ hasShip: false, hit: false }`. -/
def createEmptyBoard : Board := fun _ _ => emptyCell

/-- `inBounds(x, y)` for the non-negative coordinates used by the main loops. -/
def inBounds (x y : Nat) : Bool := decide (x < BOARD_SIZE) && decide (y < BOARD_SIZE)

/-- `inBounds` as called from the neighbour scan, where `x + dx` may be `-1`. -/
def inBoundsI (x y : Int) : Bool :=
  decide (0 ≤ x) && decide (0 ≤ y) && decide (x < BOARD_SIZE) && decide (y < BOARD_SIZE)

/-- The neighbour offsets `-1, 0, 1` of the buffer scan in `canPlaceShip`. -/
def offsets : List Int := [-1, 0, 1]

/-- x-coordinate of the `i`-th cell of a ship anchored at `(x, y)`. -/
def tgtX (x : Nat) (horizontal : Bool) (i : Nat) : Nat := if horizontal then x + i else x

/-- y-coordinate of the `i`-th cell of a ship anchored at `(x, y)`. -/
def tgtY (y : Nat) (horizontal : Bool) (i : Nat) : Nat := if horizontal then y else y + i

/-- `canPlaceShip`: every cell of the candidate ship is in bounds and no cell of
its 3×3 neighbourhood (overlap plus 1-cell buffer, diagonals included) already
holds a ship. -/
def canPlaceShip (board : Board) (x y size : Nat) (horizontal : Bool) : Bool :=
  (List.range size).all fun i =>
    let cx := tgtX x horizontal i
    let cy := tgtY y horizontal i
    inBounds cx cy &&
      (offsets.all fun dx =>
        offsets.all fun dy =>
          let nx : Int := (cx : Int) + dx
          let ny : Int := (cy : Int) + dy
          !(inBoundsI nx ny && (board ny.toNat nx.toNat).hasShip))

/-- Functional update of the single cell `board[y][x]`. -/
def updateCell (b : Board) (x y : Nat) (c : Cell) : Board :=
  fun j i => if j = y ∧ i = x then c else b j i

/-- The cell value written for every cell of a newly placed ship. -/
def shipCell (sid : Nat) : Cell := { hasShip := true, hit := false, shipId := some sid }

/-- The `for (let i = 0; i < size; i++) board[cy][cx] = {...}` loop: first `n`
cells of the ship written onto the board. -/
def placeCells (board : Board) (x y : Nat) (horizontal : Bool) (sid : Nat) : Nat → Board
  | 0 => board
  | n + 1 =>
      let b := placeCells board x y horizontal sid n
      updateCell b (tgtX x horizontal n) (tgtY y horizontal n) (shipCell sid)

/-- Orientation draw of attempt `k`: `Math.random() < 0.5`. -/
def drawH (g : Nat → Bool × Nat × Nat) (k : Nat) : Bool := (g k).1

/-- Anchor x draw of attempt `k`:
`Math.floor(Math.random() * (horizontal ? BOARD_SIZE - size + 1 : BOARD_SIZE))`. -/
def drawX (g : Nat → Bool × Nat × Nat) (k size : Nat) : Nat :=
  (g k).2.1 % (if drawH g k then BOARD_SIZE - size + 1 else BOARD_SIZE)

/-- Anchor y draw of attempt `k`. -/
def drawY (g : Nat → Bool × Nat × Nat) (k size : Nat) : Nat :=
  (g k).2.2 % (if drawH g k then BOARD_SIZE else BOARD_SIZE - size + 1)

/-- The `while (!placed && attempts < 500)` loop for one ship: `fuel` is the
remaining attempt budget, `k` the global index into the draw stream.  Returns
the updated board on success (`none` if the budget runs out) and the next draw
index. -/
def tryPlace (g : Nat → Bool × Nat × Nat) (b : Board) (size sid : Nat) :
    Nat → Nat → Option Board × Nat
  | k, 0 => (none, k)
  | k, fuel + 1 =>
      if canPlaceShip b (drawX g k size) (drawY g k size) size (drawH g k) then
        (some (placeCells b (drawX g k size) (drawY g k size) (drawH g k) sid size), k + 1)
      else tryPlace g b size sid (k + 1) fuel

/-- The `for (const size of SHIP_SIZES)` loop of `placeShipsRandomly`.  On
placement success the ship record is added under the next id and the id counter
advances; on failure (500 attempts exhausted) the ship is silently skipped, as
in the source. -/
def placeShipsGo (g : Nat → Bool × Nat × Nat) :
    List Nat → Board → List Ship → Nat → Nat → Board × List Ship
  | [], b, ships, _, _ => (b, ships)
  | size :: rest, b, ships, sid, k =>
      match tryPlace g b size sid k 500 with
      | (some b2, k2) =>
          placeShipsGo g rest b2 (ships ++ [{ id := sid, size := size, hits := 0 }]) (sid + 1) k2
      | (none, k2) => placeShipsGo g rest b ships sid k2

/-- `placeShipsRandomly`, parameterised by the random draw stream. -/
def placeShipsRandomly (g : Nat → Bool × Nat × Nat) : Board × List Ship :=
  placeShipsGo g SHIP_SIZES createEmptyBoard [] 1 0

/-- `cloneBoard` copies every cell record; on immutable board values this is
the identity. -/
def cloneBoard (board : Board) : Board := fun y x => board y x

/-- `ships[sid]` lookup in the fleet record. -/
def fleetGet (ships : List Ship) (sid : Nat) : Option Ship :=
  ships.find? fun t => decide (t.id = sid)

/-- `{ ...ships, [sh.id]: sh }`: replace the record under an existing key,
append under a fresh key. -/
def fleetSet (ships : List Ship) (sh : Ship) : List Ship :=
  if ships.any fun t => decide (t.id = sh.id) then
    ships.map fun t => if t.id = sh.id then sh else t
  else ships ++ [sh]

/-- The `"repeat" | "miss" | "hit" | "sunk"` result strings of `registerHit`. -/
inductive ShotResult
  | repeatShot
  | miss
  | hit
  | sunk
  deriving DecidableEq

/-- `registerHit(board, ships, x, y)`: clone the board, return `repeat` if the
cell was already hit, otherwise mark it hit; if it holds a ship (the source
tests the JavaScript truthiness of `cell.shipId`, hence the `sid ≠ 0` guard),
increment that ship's hit counter copy-on-write and report `sunk` when
`hits >= size`, else `hit`; otherwise report `miss`.  The `fleetGet _ = none`
branch is unreachable whenever every occupied cell references a ship of the
fleet; there the source spreads `undefined`, yielding a record with
`hits = NaN` stored under the non-numeric key `"undefined"` (appended after
all integer keys), whose `hits >= size` test is always false — the outcome is
`"hit"` and `checkWin` never accepts it.  This is modelled by a record under
the never-assigned id 0 with `hits < size`, so it is likewise never counted
as sunk. -/
def registerHit (board : Board) (ships : List Ship) (x y : Nat) :
    Board × List Ship × ShotResult :=
  let next := cloneBoard board
  let cell := next y x
  if cell.hit then (next, ships, ShotResult.repeatShot)
  else
    let cell2 : Cell := { cell with hit := true }
    let next2 := updateCell next x y cell2
    match cell2.shipId with
    | some sid =>
        if cell2.hasShip = true ∧ sid ≠ 0 then
          match fleetGet ships sid with
          | some s =>
              let ship : Ship := { s with hits := s.hits + 1 }
              let sunk : Bool := decide (ship.size ≤ ship.hits)
              let updated := fleetSet ships ship
              (next2, updated, if sunk then ShotResult.sunk else ShotResult.hit)
          | none => (next2, fleetSet ships { id := 0, size := 1, hits := 0 }, ShotResult.hit)
        else (next2, ships, ShotResult.miss)
    | none => (next2, ships, ShotResult.miss)

/-- `checkWin(ships)`: every ship of the fleet is sunk. -/
def checkWin (ships : List Ship) : Bool :=
  ships.all fun s => decide (s.size ≤ s.hits)

inductive Winner
  | player
  | cpu
  deriving DecidableEq

/-- The component state driving one game: both boards and fleets, whose turn it
is, and the game-over flag (`null | "player" | "cpu"` in the source). -/
structure GameState where
  playerBoard : Board
  cpuBoard : Board
  playerShips : List Ship
  cpuShips : List Ship
  playerTurn : Bool
  gameOver : Option Winner

/-- `playerFire(x, y)`: guarded by `gameOver || !playerTurn`; resolves the shot
on the CPU board, then checks the win condition before deciding whether the
turn passes (`miss`) or is retained (`hit`/`sunk`/`repeat`). -/
def playerFire (s : GameState) (x y : Nat) : GameState :=
  if s.gameOver.isSome || !s.playerTurn then s
  else
    let res := registerHit s.cpuBoard s.cpuShips x y
    let s1 : GameState := { s with cpuBoard := res.1, cpuShips := res.2.1 }
    if checkWin res.2.1 then { s1 with gameOver := some Winner.player }
    else if res.2.2 = ShotResult.miss then { s1 with playerTurn := false }
    else { s1 with playerTurn := true }

/-- The list of unfired cells of a board, in the row-major order the CPU
targeting loop builds its `candidates` array. -/
def candidates (b : Board) : List (Nat × Nat) :=
  (List.range BOARD_SIZE).flatMap fun y =>
    (List.range BOARD_SIZE).filterMap fun x =>
      if (b y x).hit then none else some (x, y)

/-- `cpuFire()`: guarded by `gameOver`; picks `candidates[floor(random * len)]`
(the raw draw `r` taken `% len`), resolves the shot on the player board, then
runs the same win-check-then-turn logic.  The source computes the new board
twice through `registerHit` (once inside the nested state updater and once for
the board setter); both calls receive the same board and coordinate and the
board component of `registerHit` does not depend on the fleet argument, so a
single call is an exact model. -/
def cpuFire (s : GameState) (r : Nat) : GameState :=
  if s.gameOver.isSome then s
  else
    let cand := candidates s.playerBoard
    if cand.isEmpty then s
    else
      let pick := cand.getD (r % cand.length) (0, 0)
      let res := registerHit s.playerBoard s.playerShips pick.1 pick.2
      let s1 : GameState := { s with playerBoard := res.1, playerShips := res.2.1 }
      if checkWin res.2.1 then { s1 with gameOver := some Winner.cpu }
      else if res.2.2 = ShotResult.miss then { s1 with playerTurn := true }
      else { s1 with playerTurn := false }

/-- The state right after `newGame()` placed the CPU fleet `(b, fl)`: player's
turn, game not over. -/
def initState (b : Board) (fl : List Ship) : GameState :=
  { playerBoard := createEmptyBoard
    cpuBoard := b
    playerShips := []
    cpuShips := fl
    playerTurn := true
    gameOver := none }

/-- Fold a list of player shots over the state. -/
def fireAll (s : GameState) (shots : List (Nat × Nat)) : GameState :=
  shots.foldl (fun s c => playerFire s c.1 c.2) s

/-- Row-major list of the occupied coordinates `(x, y)` of a board. -/
def occupiedCoords (b : Board) : List (Nat × Nat) :=
  (List.range BOARD_SIZE).flatMap fun y =>
    (List.range BOARD_SIZE).filterMap fun x =>
      if (b y x).hasShip then some (x, y) else none

/-! ### Derived measures and invariants -/

/-- Chebyshev distance between the cells `(x1, y1)` and `(x2, y2)`. -/
def cheb (x1 y1 x2 y2 : Nat) : Nat :=
  max (max (x1 - x2) (x2 - x1)) (max (y1 - y2) (y2 - y1))

/-- Sum of a value over the 10×10 grid (row `j`, column `i`). -/
def gridSum (F : Nat → Nat → Nat) : Nat :=
  ∑ j ∈ Finset.range BOARD_SIZE, ∑ i ∈ Finset.range BOARD_SIZE, F j i

/-- Number of occupied cells of a board. -/
def occupiedCount (b : Board) : Nat :=
  gridSum fun j i => if (b j i).hasShip then 1 else 0

/-- Number of cells carrying the ship id `sid`. -/
def shipCellCount (b : Board) (sid : Nat) : Nat :=
  gridSum fun j i => if (b j i).shipId = some sid then 1 else 0

/-- Number of already-hit cells carrying the ship id `sid`. -/
def firedShipCount (b : Board) (sid : Nat) : Nat :=
  gridSum fun j i => if (b j i).shipId = some sid ∧ (b j i).hit then 1 else 0

/-- Separation invariant: occupied cells of distinct ships are at Chebyshev
distance at least 2. -/
def SepB (b : Board) : Prop :=
  ∀ i j i' j', i < BOARD_SIZE → j < BOARD_SIZE → i' < BOARD_SIZE → j' < BOARD_SIZE →
    (b j i).hasShip = true → (b j' i').hasShip = true →
    (b j i).shipId ≠ (b j' i').shipId → 2 ≤ cheb i j i' j'

/-- Invariant carried through the placement loop: the board is unfired, cell
ship ids and fleet records are consistent, ids are strictly increasing and
below the running counter `sid`, per-ship cell counts match ship sizes, the
occupied-cell total is the sum of the placed sizes, and distinct ships are
separated. -/
structure PInv (b : Board) (ships : List Ship) (sid : Nat) : Prop where
  unfired : ∀ j i, (b j i).hit = false
  idOcc : ∀ j i, (b j i).hasShip = true ↔ ∃ s, (b j i).shipId = some s
  idRef : ∀ j i s, (b j i).shipId = some s → ∃ sh, sh ∈ ships ∧ sh.id = s
  shipsLt : ∀ sh ∈ ships, 0 < sh.id ∧ sh.id < sid
  hits0 : ∀ sh ∈ ships, sh.hits = 0
  sizeCount : ∀ sh ∈ ships, shipCellCount b sh.id = sh.size
  occCount : occupiedCount b = (ships.map Ship.size).sum
  sep : SepB b

/-- Invariant linking a board and its fleet during play: ship ids are set iff
the cell is occupied, ids are positive and reference fleet records, each ship's
hit counter equals the number of its already-hit cells, and each ship owns
exactly `size` cells. -/
structure SInv (b : Board) (ships : List Ship) : Prop where
  idOcc : ∀ j i, (b j i).hasShip = true ↔ ∃ s, (b j i).shipId = some s
  idPos : ∀ j i s, (b j i).shipId = some s → 0 < s
  idRef : ∀ j i s, (b j i).shipId = some s → ∃ sh, sh ∈ ships ∧ sh.id = s
  hitsEq : ∀ sh ∈ ships, sh.hits = firedShipCount b sh.id
  sizeEq : ∀ sh ∈ ships, shipCellCount b sh.id = sh.size

/-- The data-model invariants named by the specification: `shipId` is set iff
the cell is occupied, and every ship satisfies `hits ≤ size`. -/
def DataInv (b : Board) (ships : List Ship) : Prop :=
  (∀ j i, (b j i).hasShip = true ↔ ∃ s, (b j i).shipId = some s) ∧
    ∀ sh ∈ ships, sh.hits ≤ sh.size

/-- Invariant of the firing induction for claim C6, relative to the initially
placed board `b0`: the CPU pair stays linked, the static board content never
changes, and the game is either already won by the player or still live with
every processed shot marked hit. -/
structure FInv (b0 : Board) (s : GameState) (processed : List (Nat × Nat)) : Prop where
  sinv : SInv s.cpuBoard s.cpuShips
  staticEq : ∀ j i, (s.cpuBoard j i).hasShip = (b0 j i).hasShip ∧
    (s.cpuBoard j i).shipId = (b0 j i).shipId
  phase : (s.gameOver = some Winner.player ∧ checkWin s.cpuShips = true) ∨
    (s.gameOver = none ∧ s.playerTurn = true ∧ checkWin s.cpuShips = false ∧
      ∀ c ∈ processed, (s.cpuBoard c.2 c.1).hit = true)

/-! ### Concrete inputs used by the witnesses -/

/-- A draw stream whose every attempt succeeds immediately: ten horizontal
ships in rows 0, 2, 4, 6 and 8, pairwise separated. -/
def gW : Nat → Bool × Nat × Nat := fun k =>
  [(true, 0, 0), (true, 5, 0), (true, 0, 2), (true, 4, 2), (true, 0, 4),
    (true, 3, 4), (true, 0, 6), (true, 2, 6), (true, 4, 6), (true, 0, 8)].getD k (true, 0, 0)

/-- An adversarial draw stream: every attempt proposes the horizontal anchor
`(0, 0)`, so after the first ship is placed there every later placement fails
its whole 500-attempt budget. -/
def gBad : Nat → Bool × Nat × Nat := fun _ => (true, 0, 0)

/-- The board generated from `gW`. -/
def bW : Board := (placeShipsRandomly gW).1

/-- The fleet generated from `gW`. -/
def flW : List Ship := (placeShipsRandomly gW).2

/-- The 20 occupied coordinates of `bW`, in row-major order. -/
def shotsW : List (Nat × Nat) :=
  [(0, 0), (1, 0), (2, 0), (3, 0), (5, 0), (6, 0), (7, 0),
    (0, 2), (1, 2), (2, 2), (4, 2), (5, 2),
    (0, 4), (1, 4), (3, 4), (4, 4),
    (0, 6), (2, 6), (4, 6), (0, 8)]

/-- The freshly started game against the `gW` fleet. -/
def sW : GameState := initState bW flW

/-- A live state whose CPU fleet is empty. -/
def sEmptyFleet : GameState := initState createEmptyBoard []

/-- A finished game (player already won). -/
def sDone : GameState := { sW with gameOver := some Winner.player }

/-- Decidable test: is `(i, j)` among the first `n` cells of a ship anchored at
`(x, y)`? -/
def coveredB (x y : Nat) (horizontal : Bool) (n i j : Nat) : Bool :=
  (List.range n).any fun m =>
    decide (i = tgtX x horizontal m) && decide (j = tgtY y horizontal m)

/-! ### Basic lemmas -/

theorem cloneBoard_id (b : Board) : cloneBoard b = b := rfl

theorem updateCell_same (b : Board) (x y : Nat) (c : Cell) :
    updateCell b x y c y x = c := by
  simp [updateCell]

theorem updateCell_other (b : Board) (x y : Nat) (c : Cell) (i j : Nat)
    (h : ¬(j = y ∧ i = x)) : updateCell b x y c j i = b j i := by
  simp [updateCell, h]

theorem inBounds_iff (x y : Nat) : inBounds x y = true ↔ x < 10 ∧ y < 10 := by
  simp [inBounds, BOARD_SIZE]

theorem inBoundsI_iff (x y : Int) :
    inBoundsI x y = true ↔ 0 ≤ x ∧ 0 ≤ y ∧ x < 10 ∧ y < 10 := by
  simp [inBoundsI, BOARD_SIZE]
  omega

theorem cheb_comm (x1 y1 x2 y2 : Nat) : cheb x1 y1 x2 y2 = cheb x2 y2 x1 y1 := by
  simp only [cheb]
  omega

theorem cheb_self (x y : Nat) : cheb x y x y = 0 := by
  simp only [cheb]
  omega

theorem tgt_inj (x y : Nat) (h : Bool) (m m' : Nat)
    (hne : m ≠ m') : ¬(tgtX x h m = tgtX x h m' ∧ tgtY y h m = tgtY y h m') := by
  cases h <;> simp [tgtX, tgtY] <;> omega

/-- Unfold one conjunct of `canPlaceShip` for the `m`-th ship cell. -/
theorem canPlace_elim {b : Board} {x y n : Nat} {h : Bool}
    (hc : canPlaceShip b x y n h = true) {m : Nat} (hm : m < n) :
    inBounds (tgtX x h m) (tgtY y h m) = true ∧
      ∀ dx ∈ offsets, ∀ dy ∈ offsets,
        inBoundsI ((tgtX x h m : Int) + dx) ((tgtY y h m : Int) + dy) = true →
          (b ((tgtY y h m : Int) + dy).toNat ((tgtX x h m : Int) + dx).toNat).hasShip = false := by
  rw [canPlaceShip, List.all_eq_true] at hc
  have := hc m (List.mem_range.mpr hm)
  simp only [Bool.and_eq_true, List.all_eq_true] at this
  refine ⟨this.1, fun dx hdx dy hdy hinb => ?_⟩
  have h2 := this.2 dx hdx dy hdy
  simp at h2
  rcases h2 with h2 | h2
  · rw [hinb] at h2
    exact absurd h2 (by simp)
  · exact h2

/-- Each ship cell of a successful placement is in bounds. -/
theorem canPlace_inb {b : Board} {x y n : Nat} {h : Bool}
    (hc : canPlaceShip b x y n h = true) {m : Nat} (hm : m < n) :
    tgtX x h m < 10 ∧ tgtY y h m < 10 :=
  (inBounds_iff _ _).mp (canPlace_elim hc hm).1

/-- A successful placement is at Chebyshev distance ≥ 2 from every occupied
cell of the previous board. -/
theorem canPlace_sep {b : Board} {x y n : Nat} {h : Bool}
    (hc : canPlaceShip b x y n h = true) {m : Nat} (hm : m < n)
    {i j : Nat} (hi : i < 10) (hj : j < 10) (hocc : (b j i).hasShip = true) :
    2 ≤ cheb (tgtX x h m) (tgtY y h m) i j := by
  by_contra hlt
  push_neg at hlt
  set cx := tgtX x h m with hcx
  set cy := tgtY y h m with hcy
  have hdx : (i : Int) - cx = -1 ∨ (i : Int) - cx = 0 ∨ (i : Int) - cx = 1 := by
    simp only [cheb] at hlt
    omega
  have hdy : (j : Int) - cy = -1 ∨ (j : Int) - cy = 0 ∨ (j : Int) - cy = 1 := by
    simp only [cheb] at hlt
    omega
  have hdxm : (i : Int) - cx ∈ offsets := by
    rcases hdx with h' | h' | h' <;> simp [offsets, h']
  have hdym : (j : Int) - cy ∈ offsets := by
    rcases hdy with h' | h' | h' <;> simp [offsets, h']
  have hfalse := (canPlace_elim hc hm).2 _ hdxm _ hdym
  have hxi : (cx : Int) + ((i : Int) - cx) = (i : Int) := by ring
  have hyj : (cy : Int) + ((j : Int) - cy) = (j : Int) := by ring
  rw [hxi, hyj] at hfalse
  have hinb : inBoundsI (i : Int) (j : Int) = true := by
    rw [inBoundsI_iff]
    constructor
    · exact Int.ofNat_nonneg i
    refine ⟨Int.ofNat_nonneg j, ?_, ?_⟩ <;> omega
  have := hfalse hinb
  simp only [Int.toNat_ofNat] at this
  rw [this] at hocc
  exact Bool.false_ne_true hocc

/-- The cell a successful placement is about to write is not yet occupied. -/
theorem canPlace_free {b : Board} {x y n : Nat} {h : Bool}
    (hc : canPlaceShip b x y n h = true) {m : Nat} (hm : m < n) :
    (b (tgtY y h m) (tgtX x h m)).hasShip = false := by
  by_contra hne
  have hocc : (b (tgtY y h m) (tgtX x h m)).hasShip = true := by
    cases hv : (b (tgtY y h m) (tgtX x h m)).hasShip
    · exact absurd hv hne
    · rfl
  obtain ⟨hx10, hy10⟩ := canPlace_inb hc hm
  have := canPlace_sep hc hm hx10 hy10 hocc
  rw [cheb_self] at this
  omega

theorem coveredB_succ (x y : Nat) (h : Bool) (n i j : Nat) :
    coveredB x y h (n + 1) i j =
      (coveredB x y h n i j || (decide (i = tgtX x h n) && decide (j = tgtY y h n))) := by
  simp [coveredB, List.range_succ]

theorem coveredB_iff (x y : Nat) (h : Bool) (n i j : Nat) :
    coveredB x y h n i j = true ↔ ∃ m, m < n ∧ i = tgtX x h m ∧ j = tgtY y h m := by
  simp [coveredB, List.any_eq_true, List.mem_range]

/-- Cell-level description of `placeCells`: ship cells get the new ship value,
everything else keeps its old value. -/
theorem placeCells_get (b : Board) (x y : Nat) (h : Bool) (sid : Nat) :
    ∀ n j i, placeCells b x y h sid n j i =
      if coveredB x y h n i j then shipCell sid else b j i := by
  intro n
  induction n with
  | zero => intro j i; simp [placeCells, coveredB]
  | succ n ih =>
      intro j i
      show updateCell (placeCells b x y h sid n) (tgtX x h n) (tgtY y h n) (shipCell sid) j i = _
      rw [coveredB_succ]
      by_cases hc : j = tgtY y h n ∧ i = tgtX x h n
      · rw [updateCell, if_pos hc]
        have : (decide (i = tgtX x h n) && decide (j = tgtY y h n)) = true := by
          simp [hc.1, hc.2]
        rw [this, Bool.or_true, if_pos rfl]
      · rw [updateCell, if_neg hc, ih j i]
        have : (decide (i = tgtX x h n) && decide (j = tgtY y h n)) = false := by
          rcases not_and_or.mp hc with h' | h' <;> simp [h']
        rw [this, Bool.or_false]

/-! ### Grid-sum lemmas -/

theorem gridSum_congr {F G : Nat → Nat → Nat}
    (h : ∀ j i, j < 10 → i < 10 → F j i = G j i) : gridSum F = gridSum G := by
  unfold gridSum BOARD_SIZE
  refine Finset.sum_congr rfl fun j hj => Finset.sum_congr rfl fun i hi => ?_
  exact h j i (Finset.mem_range.mp hj) (Finset.mem_range.mp hi)

theorem gridSum_zero {F : Nat → Nat → Nat}
    (h : ∀ j i, j < 10 → i < 10 → F j i = 0) : gridSum F = 0 := by
  unfold gridSum BOARD_SIZE
  refine Finset.sum_eq_zero fun j hj => Finset.sum_eq_zero fun i hi => ?_
  exact h j i (Finset.mem_range.mp hj) (Finset.mem_range.mp hi)

theorem gridSum_le {F G : Nat → Nat → Nat}
    (h : ∀ j i, j < 10 → i < 10 → F j i ≤ G j i) : gridSum F ≤ gridSum G := by
  unfold gridSum BOARD_SIZE
  refine Finset.sum_le_sum fun j hj => Finset.sum_le_sum fun i hi => ?_
  exact h j i (Finset.mem_range.mp hj) (Finset.mem_range.mp hi)

theorem gridSum_lt {F G : Nat → Nat → Nat} (j0 i0 : Nat) (hj : j0 < 10) (hi : i0 < 10)
    (hle : ∀ j i, j < 10 → i < 10 → F j i ≤ G j i) (hlt : F j0 i0 < G j0 i0) :
    gridSum F < gridSum G := by
  unfold gridSum BOARD_SIZE
  have hjm : j0 ∈ Finset.range 10 := Finset.mem_range.mpr hj
  have him : i0 ∈ Finset.range 10 := Finset.mem_range.mpr hi
  refine Finset.sum_lt_sum (fun j hjr => Finset.sum_le_sum fun i hir => ?_) ⟨j0, hjm, ?_⟩
  · exact hle j i (Finset.mem_range.mp hjr) (Finset.mem_range.mp hir)
  · refine Finset.sum_lt_sum (fun i hir => ?_) ⟨i0, him, hlt⟩
    exact hle j0 i hj (Finset.mem_range.mp hir)

/-- Exchange law for a grid sum that differs from another at a single point. -/
theorem gridSum_update_point {F G : Nat → Nat → Nat} (j0 i0 : Nat)
    (hj : j0 < 10) (hi : i0 < 10)
    (hoff : ∀ j i, ¬(j = j0 ∧ i = i0) → G j i = F j i) :
    gridSum G + F j0 i0 = gridSum F + G j0 i0 := by
  unfold gridSum BOARD_SIZE
  have hjm : j0 ∈ Finset.range 10 := Finset.mem_range.mpr hj
  have him : i0 ∈ Finset.range 10 := Finset.mem_range.mpr hi
  have hrowG : ∀ H : Nat → Nat → Nat,
      (∑ j ∈ Finset.range 10, ∑ i ∈ Finset.range 10, H j i) =
        (∑ j ∈ Finset.range 10 \ {j0}, ∑ i ∈ Finset.range 10, H j i) +
          (∑ i ∈ Finset.range 10, H j0 i) := by
    intro H
    rw [Finset.sum_eq_sum_diff_singleton_add hjm]
  have hcellG : ∀ H : Nat → Nat → Nat,
      (∑ i ∈ Finset.range 10, H j0 i) =
        (∑ i ∈ Finset.range 10 \ {i0}, H j0 i) + H j0 i0 := by
    intro H
    rw [Finset.sum_eq_sum_diff_singleton_add him]
  rw [hrowG F, hrowG G, hcellG F, hcellG G]
  have hrows : (∑ j ∈ Finset.range 10 \ {j0}, ∑ i ∈ Finset.range 10, G j i) =
      (∑ j ∈ Finset.range 10 \ {j0}, ∑ i ∈ Finset.range 10, F j i) := by
    refine Finset.sum_congr rfl fun j hjr => Finset.sum_congr rfl fun i _ => ?_
    have : j ≠ j0 := (Finset.mem_sdiff.mp hjr).2 ∘ Finset.mem_singleton.mpr
    exact hoff j i fun hc => this hc.1
  have hcells : (∑ i ∈ Finset.range 10 \ {i0}, G j0 i) =
      (∑ i ∈ Finset.range 10 \ {i0}, F j0 i) := by
    refine Finset.sum_congr rfl fun i hir => ?_
    have : i ≠ i0 := (Finset.mem_sdiff.mp hir).2 ∘ Finset.mem_singleton.mpr
    exact hoff j0 i fun hc => this hc.2
  rw [hrows, hcells]
  omega

/-- Updating one cell exchanges its old measure for the new one in a grid
count. -/
theorem gridCount_update (f : Cell → Nat) (b : Board) (x y : Nat) (c : Cell)
    (hx : x < 10) (hy : y < 10) :
    gridSum (fun j i => f (updateCell b x y c j i)) + f (b y x) =
      gridSum (fun j i => f (b j i)) + f c := by
  have h : gridSum (fun j i => f (updateCell b x y c j i)) + f (b y x) =
      gridSum (fun j i => f (b j i)) + f (updateCell b x y c y x) :=
    gridSum_update_point (F := fun j i => f (b j i))
      (G := fun j i => f (updateCell b x y c j i)) y x hy hx
      (fun j i hne => by
        show f (updateCell b x y c j i) = f (b j i)
        rw [updateCell_other b x y c i j hne])
  rw [updateCell_same] at h
  exact h

theorem coveredB_tgt_self (x y : Nat) (h : Bool) (n : Nat) :
    coveredB x y h n (tgtX x h n) (tgtY y h n) = false := by
  cases hb : coveredB x y h n (tgtX x h n) (tgtY y h n)
  · rfl
  · obtain ⟨m, hm, h1, h2⟩ := (coveredB_iff _ _ _ _ _ _).mp hb
    exact absurd ⟨h1.symm, h2.symm⟩ (tgt_inj x y h m n (by omega))

theorem placeCells_tgt_old (b : Board) (x y : Nat) (h : Bool) (sid n : Nat) :
    placeCells b x y h sid n (tgtY y h n) (tgtX x h n) = b (tgtY y h n) (tgtX x h n) := by
  rw [placeCells_get, coveredB_tgt_self, if_neg]
  simp

theorem occupiedCount_placeCells {b : Board} {x y size : Nat} {h : Bool} {sid : Nat}
    (hc : canPlaceShip b x y size h = true) :
    ∀ n, n ≤ size → occupiedCount (placeCells b x y h sid n) = occupiedCount b + n := by
  intro n
  induction n with
  | zero => intro _; simp [placeCells]
  | succ n ih =>
      intro hn
      have hxb := (canPlace_inb hc (by omega : n < size)).1
      have hyb := (canPlace_inb hc (by omega : n < size)).2
      have hstep : occupiedCount (updateCell (placeCells b x y h sid n)
            (tgtX x h n) (tgtY y h n) (shipCell sid)) +
            (if (placeCells b x y h sid n (tgtY y h n) (tgtX x h n)).hasShip then 1 else 0) =
          occupiedCount (placeCells b x y h sid n) +
            (if (shipCell sid).hasShip then 1 else 0) :=
        gridCount_update (fun c => if c.hasShip then 1 else 0)
          (placeCells b x y h sid n) (tgtX x h n) (tgtY y h n) (shipCell sid) hxb hyb
      rw [placeCells_tgt_old, canPlace_free hc (by omega : n < size), ih (by omega)] at hstep
      have h0 : (if (false = true) then 1 else 0) = 0 := by simp
      have h1 : (if (shipCell sid).hasShip = true then 1 else 0) = 1 := by
        simp [shipCell]
      rw [h0, h1] at hstep
      show occupiedCount (updateCell (placeCells b x y h sid n)
        (tgtX x h n) (tgtY y h n) (shipCell sid)) = occupiedCount b + (n + 1)
      omega

theorem shipCellCount_placeCells_fresh {b : Board} {x y size : Nat} {h : Bool} {sid : Nat}
    (hc : canPlaceShip b x y size h = true)
    (hfresh : ∀ j i, (b j i).shipId ≠ some sid) :
    ∀ n, n ≤ size → shipCellCount (placeCells b x y h sid n) sid = n := by
  intro n
  induction n with
  | zero =>
      intro _
      show shipCellCount b sid = 0
      exact gridSum_zero fun j i _ _ => by rw [if_neg (hfresh j i)]
  | succ n ih =>
      intro hn
      have hxb := (canPlace_inb hc (by omega : n < size)).1
      have hyb := (canPlace_inb hc (by omega : n < size)).2
      have hstep : shipCellCount (updateCell (placeCells b x y h sid n)
            (tgtX x h n) (tgtY y h n) (shipCell sid)) sid +
            (if (placeCells b x y h sid n (tgtY y h n) (tgtX x h n)).shipId = some sid
              then 1 else 0) =
          shipCellCount (placeCells b x y h sid n) sid +
            (if (shipCell sid).shipId = some sid then 1 else 0) :=
        gridCount_update (fun c => if c.shipId = some sid then 1 else 0)
          (placeCells b x y h sid n) (tgtX x h n) (tgtY y h n) (shipCell sid) hxb hyb
      rw [placeCells_tgt_old, if_neg (hfresh _ _), ih (by omega)] at hstep
      have h1 : (if (shipCell sid).shipId = some sid then 1 else 0) = 1 := by
        simp [shipCell]
      rw [h1] at hstep
      show shipCellCount (updateCell (placeCells b x y h sid n)
        (tgtX x h n) (tgtY y h n) (shipCell sid)) sid = n + 1
      omega

theorem shipCellCount_placeCells_other {b : Board} {x y size : Nat} {h : Bool} {sid : Nat}
    (sid' : Nat) (hc : canPlaceShip b x y size h = true) (hne : sid' ≠ sid)
    (hnoghost : ∀ j i, (b j i).hasShip = false → (b j i).shipId = none) :
    ∀ n, n ≤ size → shipCellCount (placeCells b x y h sid n) sid' = shipCellCount b sid' := by
  intro n
  induction n with
  | zero => intro _; rfl
  | succ n ih =>
      intro hn
      have hxb := (canPlace_inb hc (by omega : n < size)).1
      have hyb := (canPlace_inb hc (by omega : n < size)).2
      have hstep : shipCellCount (updateCell (placeCells b x y h sid n)
            (tgtX x h n) (tgtY y h n) (shipCell sid)) sid' +
            (if (placeCells b x y h sid n (tgtY y h n) (tgtX x h n)).shipId = some sid'
              then 1 else 0) =
          shipCellCount (placeCells b x y h sid n) sid' +
            (if (shipCell sid).shipId = some sid' then 1 else 0) :=
        gridCount_update (fun c => if c.shipId = some sid' then 1 else 0)
          (placeCells b x y h sid n) (tgtX x h n) (tgtY y h n) (shipCell sid) hxb hyb
      have hnone := hnoghost _ _ (canPlace_free hc (by omega : n < size))
      rw [placeCells_tgt_old, hnone, ih (by omega)] at hstep
      have h0 : (if (none : Option Nat) = some sid' then 1 else 0) = 0 := by simp
      have h1 : (if (shipCell sid).shipId = some sid' then 1 else 0) = 0 := by
        simp [shipCell, Ne.symm hne]
      rw [h0, h1] at hstep
      show shipCellCount (updateCell (placeCells b x y h sid n)
        (tgtX x h n) (tgtY y h n) (shipCell sid)) sid' = shipCellCount b sid'
      omega

theorem unfired_placeCells {b : Board} {x y : Nat} {h : Bool} {sid : Nat}
    (hunf : ∀ j i, (b j i).hit = false) (n : Nat) :
    ∀ j i, (placeCells b x y h sid n j i).hit = false := by
  intro j i
  rw [placeCells_get]
  split
  · rfl
  · exact hunf j i

theorem firedShipCount_of_unfired {b : Board} (sid : Nat)
    (hunf : ∀ j i, (b j i).hit = false) : firedShipCount b sid = 0 := by
  refine gridSum_zero fun j i _ _ => ?_
  rw [if_neg]
  rintro ⟨-, hhit⟩
  rw [hunf j i] at hhit
  exact Bool.false_ne_true hhit

/-- Placing a fresh ship through a successful `canPlaceShip` test preserves the
separation invariant. -/
theorem SepB_placeCells {b : Board} {x y size : Nat} {h : Bool} {sid : Nat}
    (hsep : SepB b) (hc : canPlaceShip b x y size h = true) :
    SepB (placeCells b x y h sid size) := by
  intro i j i' j' hi hj hi' hj' hocc hocc' hneid
  rw [placeCells_get b x y h sid size j i] at hocc hneid
  rw [placeCells_get b x y h sid size j' i'] at hocc' hneid
  by_cases h1 : coveredB x y h size i j = true
  · rw [if_pos h1] at hocc hneid
    by_cases h2 : coveredB x y h size i' j' = true
    · rw [if_pos h2] at hneid
      exact absurd rfl hneid
    · rw [if_neg h2] at hocc'
      obtain ⟨m, hm, hix, hjy⟩ := (coveredB_iff _ _ _ _ _ _).mp h1
      subst hix
      subst hjy
      exact canPlace_sep hc hm hi' hj' hocc'
  · rw [if_neg h1] at hocc hneid
    by_cases h2 : coveredB x y h size i' j' = true
    · rw [if_pos h2] at hocc' hneid
      obtain ⟨m, hm, hix, hjy⟩ := (coveredB_iff _ _ _ _ _ _).mp h2
      subst hix
      subst hjy
      rw [cheb_comm]
      exact canPlace_sep hc hm hi hj hocc
    · rw [if_neg h2] at hocc' hneid
      exact hsep i j i' j' hi hj hi' hj' hocc hocc' hneid

/-- Core step of the placement induction: a successful placement extends the
invariant to the grown board and fleet. -/
theorem PInv_place {b : Board} {ships : List Ship} {sid : Nat} {x y size : Nat} {h : Bool}
    (hinv : PInv b ships sid) (hsid : 0 < sid)
    (hc : canPlaceShip b x y size h = true) :
    PInv (placeCells b x y h sid size) (ships ++ [⟨sid, size, 0⟩]) (sid + 1) := by
  have hfresh : ∀ j i, (b j i).shipId ≠ some sid := by
    intro j i hcon
    obtain ⟨sh, hmem, hid⟩ := hinv.idRef j i sid hcon
    have := (hinv.shipsLt sh hmem).2
    omega
  have hnoghost : ∀ j i, (b j i).hasShip = false → (b j i).shipId = none := by
    intro j i hns
    cases hopt : (b j i).shipId with
    | none => rfl
    | some s =>
        have hocc : (b j i).hasShip = true := (hinv.idOcc j i).mpr ⟨s, hopt⟩
        rw [hns] at hocc
        exact absurd hocc (by simp)
  refine ⟨?_, ?_, ?_, ?_, ?_, ?_, ?_, ?_⟩
  · exact unfired_placeCells hinv.unfired size
  · intro j i
    rw [placeCells_get]
    split
    · exact ⟨fun _ => ⟨sid, rfl⟩, fun _ => rfl⟩
    · exact hinv.idOcc j i
  · intro j i s
    rw [placeCells_get]
    split
    · intro hs
      have hssid : s = sid := by
        have : some sid = some s := hs
        injection this with hh
        exact hh.symm
      exact ⟨⟨sid, size, 0⟩, by simp, by rw [hssid]⟩
    · intro hs
      obtain ⟨sh, hm, hid⟩ := hinv.idRef j i s hs
      exact ⟨sh, by simp [hm], hid⟩
  · intro sh hm
    rcases List.mem_append.mp hm with hm | hm
    · have := hinv.shipsLt sh hm
      exact ⟨this.1, by omega⟩
    · have hsh : sh = ⟨sid, size, 0⟩ := by simpa using hm
      subst hsh
      show 0 < sid ∧ sid < sid + 1
      exact ⟨hsid, by omega⟩
  · intro sh hm
    rcases List.mem_append.mp hm with hm | hm
    · exact hinv.hits0 sh hm
    · have hsh : sh = ⟨sid, size, 0⟩ := by simpa using hm
      rw [hsh]
  · intro sh hm
    rcases List.mem_append.mp hm with hm | hm
    · have hne : sh.id ≠ sid := by
        have := (hinv.shipsLt sh hm).2
        omega
      rw [shipCellCount_placeCells_other sh.id hc hne hnoghost size le_rfl]
      exact hinv.sizeCount sh hm
    · have hsh : sh = ⟨sid, size, 0⟩ := by simpa using hm
      subst hsh
      exact shipCellCount_placeCells_fresh hc hfresh size le_rfl
  · rw [occupiedCount_placeCells hc size le_rfl, hinv.occCount]
    simp
  · exact SepB_placeCells hinv.sep hc

/-- The invariant holds for the empty board and fleet. -/
theorem PInv_empty : PInv createEmptyBoard [] 1 := by
  refine ⟨?_, ?_, ?_, ?_, ?_, ?_, ?_, ?_⟩
  · intro j i
    rfl
  · intro j i
    constructor
    · intro hcon
      exact absurd hcon (by simp [createEmptyBoard, emptyCell])
    · rintro ⟨s, hs⟩
      exact absurd hs (by simp [createEmptyBoard, emptyCell])
  · intro j i s hs
    exact absurd hs (by simp [createEmptyBoard, emptyCell])
  · intro sh hm
    exact absurd hm (by simp)
  · intro sh hm
    exact absurd hm (by simp)
  · intro sh hm
    exact absurd hm (by simp)
  · exact gridSum_zero fun j i _ _ => by simp [createEmptyBoard, emptyCell]
  · intro i j i' j' _ _ _ _ hocc
    exact absurd hocc (by simp [createEmptyBoard, emptyCell])

/-! ### The placement loop -/

/-- One successful attempt resolves `tryPlace` immediately. -/
theorem tryPlace_succ {g : Nat → Bool × Nat × Nat} {b : Board} {size sid k : Nat} (fuel : Nat)
    (hcan : canPlaceShip b (drawX g k size) (drawY g k size) size (drawH g k) = true) :
    tryPlace g b size sid k (fuel + 1) =
      (some (placeCells b (drawX g k size) (drawY g k size) (drawH g k) sid size), k + 1) := by
  rw [tryPlace, if_pos hcan]

/-- If every attempt fails, `tryPlace` exhausts its budget. -/
theorem tryPlace_none {g : Nat → Bool × Nat × Nat} {b : Board} {size sid : Nat}
    (hfail : ∀ k, canPlaceShip b (drawX g k size) (drawY g k size) size (drawH g k) = false) :
    ∀ fuel k, tryPlace g b size sid k fuel = (none, k + fuel) := by
  intro fuel
  induction fuel with
  | zero => intro k; rfl
  | succ fuel ih =>
      intro k
      rw [tryPlace, if_neg (by rw [hfail k]; exact Bool.false_ne_true), ih (k + 1)]
      congr 1
      omega

/-- `tryPlace` either fails leaving the board alone, or returns the board with
one ship placed at a spot that passed `canPlaceShip`. -/
theorem tryPlace_spec (g : Nat → Bool × Nat × Nat) (b : Board) (size sid : Nat) :
    ∀ fuel k,
      (∃ k', tryPlace g b size sid k fuel = (none, k')) ∨
      (∃ x y hb k', canPlaceShip b x y size hb = true ∧
        tryPlace g b size sid k fuel = (some (placeCells b x y hb sid size), k')) := by
  intro fuel
  induction fuel with
  | zero => intro k; exact Or.inl ⟨k, rfl⟩
  | succ fuel ih =>
      intro k
      by_cases hcan : canPlaceShip b (drawX g k size) (drawY g k size) size (drawH g k) = true
      · exact Or.inr ⟨_, _, _, k + 1, hcan, tryPlace_succ fuel hcan⟩
      · rw [tryPlace, if_neg hcan]
        exact ih (k + 1)

/-- Main induction over the ship-size list: the placement loop extends the
fleet by ships whose sizes form a sublist of the remaining sizes, and the
placement invariant holds at the end. -/
theorem go_spec (g : Nat → Bool × Nat × Nat) :
    ∀ (sizes : List Nat) (b : Board) (ships : List Ship) (sid k : Nat),
      PInv b ships sid → 0 < sid →
      ∃ t extra sid',
        t.Sublist sizes ∧
        (placeShipsGo g sizes b ships sid k).2 = ships ++ extra ∧
        extra.map Ship.size = t ∧
        0 < sid' ∧
        PInv (placeShipsGo g sizes b ships sid k).1 (placeShipsGo g sizes b ships sid k).2 sid' := by
  intro sizes
  induction sizes with
  | nil =>
      intro b ships sid k hinv hsid
      exact ⟨[], [], sid, List.nil_sublist _, by simp [placeShipsGo], rfl, hsid, hinv⟩
  | cons size rest ih =>
      intro b ships sid k hinv hsid
      rcases tryPlace_spec g b size sid 500 k with ⟨k', heq⟩ | ⟨x, y, hb, k', hcan, heq⟩
      · have hgo : placeShipsGo g (size :: rest) b ships sid k =
            placeShipsGo g rest b ships sid k' := by
          rw [placeShipsGo, heq]
        obtain ⟨t, extra, sid', hsub, hext, hmap, hsid', hinv'⟩ := ih b ships sid k' hinv hsid
        exact ⟨t, extra, sid', hsub.cons size, by rw [hgo]; exact hext, hmap, hsid',
          by rw [hgo]; exact hinv'⟩
      · have hgo : placeShipsGo g (size :: rest) b ships sid k =
            placeShipsGo g rest (placeCells b x y hb sid size)
              (ships ++ [⟨sid, size, 0⟩]) (sid + 1) k' := by
          rw [placeShipsGo, heq]
        have hinv2 := PInv_place hinv hsid hcan
        obtain ⟨t, extra, sid', hsub, hext, hmap, hsid', hinv'⟩ :=
          ih (placeCells b x y hb sid size) (ships ++ [⟨sid, size, 0⟩]) (sid + 1) k' hinv2
            (by omega)
        refine ⟨size :: t, ⟨sid, size, 0⟩ :: extra, sid', hsub.cons₂ size, ?_, ?_, hsid', ?_⟩
        · rw [hgo, hext]
          simp
        · simp [hmap]
        · rw [hgo]
          exact hinv'

/-- The generator output: ship sizes form a sublist of `SHIP_SIZES` and the
placement invariant holds. -/
theorem placeShips_spec (g : Nat → Bool × Nat × Nat) :
    ∃ t sid', t.Sublist SHIP_SIZES ∧
      ((placeShipsRandomly g).2).map Ship.size = t ∧ 0 < sid' ∧
      PInv (placeShipsRandomly g).1 (placeShipsRandomly g).2 sid' := by
  obtain ⟨t, extra, sid', hsub, hext, hmap, hsid', hinv⟩ :=
    go_spec g SHIP_SIZES createEmptyBoard [] 1 0 PInv_empty one_pos
  refine ⟨t, sid', hsub, ?_, hsid', hinv⟩
  show (placeShipsGo g SHIP_SIZES createEmptyBoard [] 1 0).2.map Ship.size = t
  rw [hext]
  simpa using hmap

/-- On the empty board any in-bounds placement is accepted. -/
theorem canPlace_empty {x y n : Nat} {h : Bool}
    (hb : ∀ m, m < n → tgtX x h m < 10 ∧ tgtY y h m < 10) :
    canPlaceShip createEmptyBoard x y n h = true := by
  rw [canPlaceShip, List.all_eq_true]
  intro m hm
  show (inBounds (tgtX x h m) (tgtY y h m) &&
    (offsets.all fun dx => offsets.all fun dy =>
      !(inBoundsI ((tgtX x h m : Int) + dx) ((tgtY y h m : Int) + dy) &&
        (createEmptyBoard (((tgtY y h m : Int) + dy).toNat) (((tgtX x h m : Int) + dx).toNat)).hasShip))) = true
  have hmb := hb m (List.mem_range.mp hm)
  simp [inBounds_iff, hmb, createEmptyBoard, emptyCell]

/-- The drawn anchor always keeps the whole ship in bounds. -/
theorem tgt_bounds (g : Nat → Bool × Nat × Nat) (k size : Nat)
    (h1 : 1 ≤ size) (h10 : size ≤ 10) :
    ∀ m, m < size →
      tgtX (drawX g k size) (drawH g k) m < 10 ∧ tgtY (drawY g k size) (drawH g k) m < 10 := by
  intro m hm
  cases hh : drawH g k with
  | true =>
      have hx : drawX g k size < BOARD_SIZE - size + 1 := by
        rw [drawX, hh, if_pos rfl]
        exact Nat.mod_lt _ (by unfold BOARD_SIZE; omega)
      have hy : drawY g k size < BOARD_SIZE := by
        rw [drawY, hh, if_pos rfl]
        exact Nat.mod_lt _ (by unfold BOARD_SIZE; omega)
      unfold BOARD_SIZE at hx hy
      constructor
      · rw [tgtX, if_pos rfl]
        omega
      · rw [tgtY, if_pos rfl]
        omega
  | false =>
      have hx : drawX g k size < BOARD_SIZE := by
        rw [drawX, hh, if_neg (by simp)]
        exact Nat.mod_lt _ (by unfold BOARD_SIZE; omega)
      have hy : drawY g k size < BOARD_SIZE - size + 1 := by
        rw [drawY, hh, if_neg (by simp)]
        exact Nat.mod_lt _ (by unfold BOARD_SIZE; omega)
      unfold BOARD_SIZE at hx hy
      constructor
      · rw [tgtX, if_neg (by simp)]
        omega
      · rw [tgtY, if_neg (by simp)]
        omega

/-- The very first placement attempt always succeeds, so every generated fleet
starts with ship 1 of size 4 and no hits. -/
theorem placeShips_first (g : Nat → Bool × Nat × Nat) :
    ∃ rest, (placeShipsRandomly g).2 = (⟨1, 4, 0⟩ : Ship) :: rest := by
  have hcan : canPlaceShip createEmptyBoard (drawX g 0 4) (drawY g 0 4) 4 (drawH g 0) = true :=
    canPlace_empty (tgt_bounds g 0 4 (by omega) (by omega))
  have htp : tryPlace g createEmptyBoard 4 1 0 500 =
      (some (placeCells createEmptyBoard (drawX g 0 4) (drawY g 0 4) (drawH g 0) 1 4), 1) :=
    tryPlace_succ 499 hcan
  have hgo : placeShipsRandomly g = placeShipsGo g [3, 3, 2, 2, 2, 1, 1, 1, 1]
      (placeCells createEmptyBoard (drawX g 0 4) (drawY g 0 4) (drawH g 0) 1 4)
      [⟨1, 4, 0⟩] 2 1 := by
    show placeShipsGo g (4 :: [3, 3, 2, 2, 2, 1, 1, 1, 1]) createEmptyBoard [] 1 0 = _
    rw [placeShipsGo, htp]
    rfl
  have hinv1 : PInv (placeCells createEmptyBoard (drawX g 0 4) (drawY g 0 4) (drawH g 0) 1 4)
      [⟨1, 4, 0⟩] 2 := by
    have := PInv_place PInv_empty one_pos hcan
    simpa using this
  obtain ⟨t, extra, sid', hsub, hext, hmap, hsid', hinv⟩ :=
    go_spec g [3, 3, 2, 2, 2, 1, 1, 1, 1] _ [⟨1, 4, 0⟩] 2 1 hinv1 (by omega)
  refine ⟨extra, ?_⟩
  rw [hgo, hext]
  rfl

/-- A fleet headed by an unhit size-4 ship is not yet destroyed. -/
theorem checkWin_cons_false (rest : List Ship) :
    checkWin ((⟨1, 4, 0⟩ : Ship) :: rest) = false := by
  rw [checkWin, List.all_cons]
  simp

/-! ### Fleet lookup and update lemmas -/

theorem fleetGet_mem {ships : List Ship} {sid : Nat} {s : Ship}
    (h : fleetGet ships sid = some s) : s ∈ ships ∧ s.id = sid := by
  have h1 := List.mem_of_find?_eq_some h
  have h2 := List.find?_some h
  simp only [decide_eq_true_eq] at h2
  exact ⟨h1, h2⟩

theorem fleetGet_any {ships : List Ship} {sid : Nat} {s : Ship}
    (h : fleetGet ships sid = some s) :
    (ships.any fun t => decide (t.id = sid)) = true := by
  rw [List.any_eq_true]
  obtain ⟨hm, hid⟩ := fleetGet_mem h
  exact ⟨s, hm, by simp [hid]⟩

theorem fleetSet_eq_map {ships : List Ship} {s : Ship} (sh : Ship)
    (hget : fleetGet ships sh.id = some s) :
    fleetSet ships sh = ships.map fun t => if t.id = sh.id then sh else t := by
  rw [fleetSet, if_pos (fleetGet_any hget)]

theorem fleetGet_map_self (sh : Ship) (sid : Nat) (hid : sh.id = sid) :
    ∀ (ships : List Ship) (s : Ship), fleetGet ships sid = some s →
      fleetGet (ships.map fun t => if t.id = sh.id then sh else t) sid = some sh := by
  intro ships
  induction ships with
  | nil =>
      intro s h
      simp [fleetGet] at h
  | cons a l ih =>
      intro s h
      by_cases ha : a.id = sid
      · show fleetGet ((if a.id = sh.id then sh else a) :: _) sid = some sh
        rw [if_pos (by rw [ha, hid])]
        exact List.find?_cons_of_pos _ (by simp [hid])
      · show fleetGet ((if a.id = sh.id then sh else a) :: _) sid = some sh
        rw [if_neg (by rw [hid]; exact ha)]
        rw [fleetGet, List.find?_cons_of_neg _ (by simp [ha])]
        rw [fleetGet, List.find?_cons_of_neg _ (by simp [ha])] at h
        exact ih s h

theorem fleetGet_map_other (sh : Ship) (sid' : Nat) (hne : sid' ≠ sh.id) :
    ∀ ships : List Ship,
      fleetGet (ships.map fun t => if t.id = sh.id then sh else t) sid' = fleetGet ships sid' := by
  intro ships
  induction ships with
  | nil => rfl
  | cons a l ih =>
      by_cases ha : a.id = sh.id
      · show fleetGet ((if a.id = sh.id then sh else a) :: _) sid' = _
        rw [if_pos ha]
        rw [fleetGet, List.find?_cons_of_neg _ (by simp; omega)]
        rw [fleetGet, List.find?_cons_of_neg _ (by simp; omega)]
        exact ih
      · show fleetGet ((if a.id = sh.id then sh else a) :: _) sid' = _
        rw [if_neg ha]
        by_cases hp : a.id = sid'
        · rw [fleetGet, List.find?_cons_of_pos _ (by simp [hp])]
          rw [fleetGet, List.find?_cons_of_pos _ (by simp [hp])]
        · rw [fleetGet, List.find?_cons_of_neg _ (by simp [hp])]
          rw [fleetGet, List.find?_cons_of_neg _ (by simp [hp])]
          exact ih

theorem mem_fleetSet_map {ships : List Ship} {sh t' : Ship}
    (h : t' ∈ ships.map fun t => if t.id = sh.id then sh else t) :
    t' = sh ∨ (t' ∈ ships ∧ t'.id ≠ sh.id) := by
  obtain ⟨t, hm, heq⟩ := List.mem_map.mp h
  by_cases ht : t.id = sh.id
  · left
    rw [← heq, if_pos ht]
  · right
    rw [← heq, if_neg ht]
    exact ⟨hm, ht⟩

/-! ### `registerHit` branch lemmas -/

theorem registerHit_repeat {b : Board} {ships : List Ship} {x y : Nat}
    (hhit : (b y x).hit = true) :
    registerHit b ships x y = (b, ships, ShotResult.repeatShot) := by
  rw [registerHit]
  simp only [cloneBoard, hhit]
  rfl

theorem registerHit_miss {b : Board} {ships : List Ship} {x y : Nat}
    (hhit : (b y x).hit = false) (hns : (b y x).hasShip = false) :
    registerHit b ships x y =
      (updateCell b x y { b y x with hit := true }, ships, ShotResult.miss) := by
  rw [registerHit]
  simp only [cloneBoard, hhit, Bool.false_eq_true, if_false]
  cases hsid : (b y x).shipId with
  | none =>
      have hmatch : ({ b y x with hit := true } : Cell).shipId = none := hsid
      simp only [hmatch]
      rfl
  | some sid =>
      have hmatch : ({ b y x with hit := true } : Cell).shipId = some sid := hsid
      simp only [hmatch]
      rw [if_neg]
      · rfl
      · rintro ⟨hss, -⟩
        have he : ({ b y x with hit := true } : Cell).hasShip = (b y x).hasShip := rfl
        rw [he, hns] at hss
        exact Bool.false_ne_true hss

theorem registerHit_hit {b : Board} {ships : List Ship} {x y sid : Nat} {s : Ship}
    (hhit : (b y x).hit = false) (hs : (b y x).hasShip = true)
    (hsid : (b y x).shipId = some sid) (h0 : sid ≠ 0)
    (hget : fleetGet ships sid = some s) :
    registerHit b ships x y =
      (updateCell b x y { b y x with hit := true },
       fleetSet ships { s with hits := s.hits + 1 },
       if s.size ≤ s.hits + 1 then ShotResult.sunk else ShotResult.hit) := by
  rw [registerHit]
  simp only [cloneBoard, hhit, Bool.false_eq_true, if_false]
  have hmatch : ({ b y x with hit := true } : Cell).shipId = some sid := hsid
  first
  | simp only [hmatch]
  | simp only [hsid]
  rw [if_pos]
  · rw [hget]
    by_cases hcmp : s.size ≤ s.hits + 1 <;> simp [hcmp] <;> rfl
  · exact ⟨hs, h0⟩

theorem updateCell_hit_static (b : Board) (x y : Nat) :
    ∀ j i, ((updateCell b x y { b y x with hit := true }) j i).hasShip = (b j i).hasShip ∧
      ((updateCell b x y { b y x with hit := true }) j i).shipId = (b j i).shipId := by
  intro j i
  by_cases hc : j = y ∧ i = x
  · obtain ⟨rfl, rfl⟩ := hc
    rw [updateCell_same]
    exact ⟨rfl, rfl⟩
  · rw [updateCell_other _ _ _ _ _ _ hc]
    exact ⟨rfl, rfl⟩

/-- On an unfired cell the resolver always returns the one-cell update of the
board, whatever the fleet outcome. -/
theorem registerHit_fst {b : Board} {ships : List Ship} {x y : Nat}
    (hhit : (b y x).hit = false) :
    (registerHit b ships x y).1 = updateCell b x y { b y x with hit := true } := by
  rw [registerHit]
  simp only [cloneBoard, hhit, Bool.false_eq_true, if_false]
  cases hsid : (b y x).shipId with
  | none =>
      have hmatch : ({ b y x with hit := true } : Cell).shipId = none := hsid
      first
      | simp only [hmatch]
      | simp only [hsid]
      rfl
  | some sid =>
      have hmatch : ({ b y x with hit := true } : Cell).shipId = some sid := hsid
      first
      | simp only [hmatch]
      | simp only [hsid]
      by_cases hcond : (({ b y x with hit := true } : Cell).hasShip = true ∧ sid ≠ 0)
      · rw [if_pos hcond]
        cases hget : fleetGet ships sid <;> rfl
      · rw [if_neg hcond]
        rfl

theorem registerHit_static (b : Board) (ships : List Ship) (x y : Nat) :
    ∀ j i, ((registerHit b ships x y).1 j i).hasShip = (b j i).hasShip ∧
      ((registerHit b ships x y).1 j i).shipId = (b j i).shipId := by
  intro j i
  by_cases hhit : (b y x).hit = true
  · rw [registerHit_repeat hhit]
    exact ⟨rfl, rfl⟩
  · have hhit' : (b y x).hit = false := by
      cases h : (b y x).hit
      · rfl
      · exact absurd h hhit
    rw [registerHit_fst hhit']
    exact updateCell_hit_static b x y j i

theorem registerHit_mono (b : Board) (ships : List Ship) (x y : Nat) :
    ∀ j i, (b j i).hit = true → ((registerHit b ships x y).1 j i).hit = true := by
  intro j i hji
  by_cases hhit : (b y x).hit = true
  · rw [registerHit_repeat hhit]
    exact hji
  · have hhit' : (b y x).hit = false := by
      cases h : (b y x).hit
      · rfl
      · exact absurd h hhit
    rw [registerHit_fst hhit']
    by_cases hc : j = y ∧ i = x
    · obtain ⟨rfl, rfl⟩ := hc
      rw [updateCell_same]
    · rw [updateCell_other _ _ _ _ _ _ hc]
      exact hji

theorem registerHit_fires (b : Board) (ships : List Ship) (x y : Nat) :
    ((registerHit b ships x y).1 y x).hit = true := by
  by_cases hhit : (b y x).hit = true
  · rw [registerHit_repeat hhit]
    exact hhit
  · have hhit' : (b y x).hit = false := by
      cases h : (b y x).hit
      · rfl
      · exact absurd h hhit
    rw [registerHit_fst hhit', updateCell_same]

/-! ### Count bookkeeping for a fired cell -/

theorem shipCellCount_update_hit (b : Board) (x y : Nat) (hx : x < 10) (hy : y < 10)
    (q : Nat) :
    shipCellCount (updateCell b x y { b y x with hit := true }) q = shipCellCount b q := by
  have hstep : shipCellCount (updateCell b x y { b y x with hit := true }) q +
      (if (b y x).shipId = some q then 1 else 0) =
    shipCellCount b q +
      (if ({ b y x with hit := true } : Cell).shipId = some q then 1 else 0) :=
    gridCount_update (fun c => if c.shipId = some q then 1 else 0) b x y _ hx hy
  have e1 : ({ b y x with hit := true } : Cell).shipId = (b y x).shipId := rfl
  rw [e1] at hstep
  omega

theorem firedShipCount_update_none (b : Board) (x y : Nat) (hx : x < 10) (hy : y < 10)
    (hnone : (b y x).shipId = none) (q : Nat) :
    firedShipCount (updateCell b x y { b y x with hit := true }) q = firedShipCount b q := by
  have hstep : firedShipCount (updateCell b x y { b y x with hit := true }) q +
      (if (b y x).shipId = some q ∧ (b y x).hit then 1 else 0) =
    firedShipCount b q +
      (if ({ b y x with hit := true } : Cell).shipId = some q ∧
          ({ b y x with hit := true } : Cell).hit then 1 else 0) :=
    gridCount_update (fun c => if c.shipId = some q ∧ c.hit then 1 else 0) b x y _ hx hy
  have e1 : ({ b y x with hit := true } : Cell).shipId = (b y x).shipId := rfl
  rw [e1, hnone] at hstep
  have h0 : (if (none : Option Nat) = some q ∧ (b y x).hit then 1 else 0) = 0 := by
    rw [if_neg]
    rintro ⟨hc, -⟩
    exact Option.noConfusion hc
  have h1 : (if (none : Option Nat) = some q ∧
      ({ b y x with hit := true } : Cell).hit then 1 else 0) = 0 := by
    rw [if_neg]
    rintro ⟨hc, -⟩
    exact Option.noConfusion hc
  rw [h0, h1] at hstep
  omega

theorem firedShipCount_update_same (b : Board) (x y sid : Nat) (hx : x < 10) (hy : y < 10)
    (hsid : (b y x).shipId = some sid) (hhit : (b y x).hit = false) :
    firedShipCount (updateCell b x y { b y x with hit := true }) sid =
      firedShipCount b sid + 1 := by
  have hstep : firedShipCount (updateCell b x y { b y x with hit := true }) sid +
      (if (b y x).shipId = some sid ∧ (b y x).hit then 1 else 0) =
    firedShipCount b sid +
      (if ({ b y x with hit := true } : Cell).shipId = some sid ∧
          ({ b y x with hit := true } : Cell).hit then 1 else 0) :=
    gridCount_update (fun c => if c.shipId = some sid ∧ c.hit then 1 else 0) b x y _ hx hy
  have e1 : ({ b y x with hit := true } : Cell).shipId = (b y x).shipId := rfl
  have e2 : ({ b y x with hit := true } : Cell).hit = true := rfl
  rw [e1, e2, hsid, hhit] at hstep
  have h0 : (if some sid = some sid ∧ false = true then 1 else 0) = 0 := by
    rw [if_neg]
    rintro ⟨-, hc⟩
    exact Bool.false_ne_true hc
  have h1 : (if some sid = some sid ∧ true = true then 1 else 0) = 1 := if_pos ⟨rfl, rfl⟩
  rw [h0, h1] at hstep
  omega

theorem firedShipCount_update_other (b : Board) (x y sid : Nat) (hx : x < 10) (hy : y < 10)
    (hsid : (b y x).shipId = some sid) (q : Nat) (hne : q ≠ sid) :
    firedShipCount (updateCell b x y { b y x with hit := true }) q = firedShipCount b q := by
  have hstep : firedShipCount (updateCell b x y { b y x with hit := true }) q +
      (if (b y x).shipId = some q ∧ (b y x).hit then 1 else 0) =
    firedShipCount b q +
      (if ({ b y x with hit := true } : Cell).shipId = some q ∧
          ({ b y x with hit := true } : Cell).hit then 1 else 0) :=
    gridCount_update (fun c => if c.shipId = some q ∧ c.hit then 1 else 0) b x y _ hx hy
  have e1 : ({ b y x with hit := true } : Cell).shipId = (b y x).shipId := rfl
  rw [e1, hsid] at hstep
  have hq : ¬(some sid = some q) := by
    intro hc
    injection hc with hc
    exact hne hc.symm
  have h0 : (if some sid = some q ∧ (b y x).hit then 1 else 0) = 0 := by
    rw [if_neg]
    rintro ⟨hc, -⟩
    exact hq hc
  have h1 : (if some sid = some q ∧ ({ b y x with hit := true } : Cell).hit then 1 else 0) = 0 := by
    rw [if_neg]
    rintro ⟨hc, -⟩
    exact hq hc
  rw [h0, h1] at hstep
  omega

/-- Each ship's fired-cell count never exceeds its cell count. -/
theorem firedShipCount_le (b : Board) (sid : Nat) :
    firedShipCount b sid ≤ shipCellCount b sid := by
  refine gridSum_le fun j i _ _ => ?_
  by_cases hc : (b j i).shipId = some sid ∧ (b j i).hit = true
  · rw [if_pos hc, if_pos hc.1]
  · rw [if_neg hc]
    split <;> omega

/-- Under `SInv`, an occupied cell always references a positive ship id bound
to a fleet record. -/
theorem SInv_occupied_cell {b : Board} {ships : List Ship} (hinv : SInv b ships)
    {x y : Nat} (hs : (b y x).hasShip = true) :
    ∃ sid u, (b y x).shipId = some sid ∧ sid ≠ 0 ∧ fleetGet ships sid = some u ∧ u.id = sid := by
  obtain ⟨sid, hsid⟩ := (hinv.idOcc y x).mp hs
  have hpos := hinv.idPos y x sid hsid
  obtain ⟨sh, hm, hid⟩ := hinv.idRef y x sid hsid
  have hsome : (fleetGet ships sid).isSome := by
    rw [fleetGet, List.find?_isSome]
    exact ⟨sh, hm, by simp [hid]⟩
  obtain ⟨u, hu⟩ := Option.isSome_iff_exists.mp hsome
  exact ⟨sid, u, hsid, by omega, hu, (fleetGet_mem hu).2⟩

/-- The shot resolver preserves the board–fleet linking invariant. -/
theorem SInv_registerHit {b : Board} {ships : List Ship} {x y : Nat}
    (hinv : SInv b ships) (hx : x < 10) (hy : y < 10) :
    SInv (registerHit b ships x y).1 (registerHit b ships x y).2.1 := by
  by_cases hhit : (b y x).hit = true
  · rw [registerHit_repeat hhit]
    exact hinv
  · have hhit' : (b y x).hit = false := by
      cases h : (b y x).hit
      · rfl
      · exact absurd h hhit
    by_cases hs : (b y x).hasShip = true
    · obtain ⟨sid, u, hsid, h0, hget, huid⟩ := SInv_occupied_cell hinv hs
      rw [registerHit_hit hhit' hs hsid h0 hget]
      have hgetu : fleetGet ships ({ u with hits := u.hits + 1 } : Ship).id = some u := by
        have e : ({ u with hits := u.hits + 1 } : Ship).id = sid := huid
        rw [e]
        exact hget
      have hmap : fleetSet ships { u with hits := u.hits + 1 } =
          ships.map fun t => if t.id = ({ u with hits := u.hits + 1 } : Ship).id
            then { u with hits := u.hits + 1 } else t :=
        fleetSet_eq_map { u with hits := u.hits + 1 } hgetu
      have euid : ({ u with hits := u.hits + 1 } : Ship).id = sid := huid
      refine ⟨?_, ?_, ?_, ?_, ?_⟩
      · intro j i
        obtain ⟨e1, e2⟩ := updateCell_hit_static b x y j i
        rw [e1, e2]
        exact hinv.idOcc j i
      · intro j i s hsome
        rw [(updateCell_hit_static b x y j i).2] at hsome
        exact hinv.idPos j i s hsome
      · intro j i s hsome
        rw [(updateCell_hit_static b x y j i).2] at hsome
        obtain ⟨sh, hm, hid⟩ := hinv.idRef j i s hsome
        rw [hmap]
        by_cases hcase : sh.id = ({ u with hits := u.hits + 1 } : Ship).id
        · refine ⟨{ u with hits := u.hits + 1 }, ?_, ?_⟩
          · exact List.mem_map.mpr ⟨sh, hm, by rw [if_pos hcase]⟩
          · rw [euid, ← hid, hcase, euid]
        · exact ⟨sh, List.mem_map.mpr ⟨sh, hm, by rw [if_neg hcase]⟩, hid⟩
      · intro sh hm
        rw [hmap] at hm
        rcases mem_fleetSet_map hm with rfl | ⟨hm', hne⟩
        · have hu := hinv.hitsEq u (fleetGet_mem hget).1
          show u.hits + 1 = firedShipCount (updateCell b x y { b y x with hit := true })
            ({ u with hits := u.hits + 1 } : Ship).id
          rw [euid, firedShipCount_update_same b x y sid hx hy hsid hhit', ← huid, ← hu]
        · rw [euid] at hne
          have := hinv.hitsEq sh hm'
          rw [this, firedShipCount_update_other b x y sid hx hy hsid sh.id hne]
      · intro sh hm
        rw [hmap] at hm
        rcases mem_fleetSet_map hm with rfl | ⟨hm', hne⟩
        · have hu := hinv.sizeEq u (fleetGet_mem hget).1
          show shipCellCount (updateCell b x y { b y x with hit := true })
            ({ u with hits := u.hits + 1 } : Ship).id = ({ u with hits := u.hits + 1 } : Ship).size
          rw [euid, shipCellCount_update_hit b x y hx hy sid]
          show shipCellCount b sid = u.size
          rw [← huid]
          exact hu
        · rw [shipCellCount_update_hit b x y hx hy sh.id]
          exact hinv.sizeEq sh hm'
    · have hs' : (b y x).hasShip = false := by
        cases h : (b y x).hasShip
        · rfl
        · exact absurd h hs
      have hnone : (b y x).shipId = none := by
        cases hopt : (b y x).shipId with
        | none => rfl
        | some s =>
            have : (b y x).hasShip = true := (hinv.idOcc y x).mpr ⟨s, hopt⟩
            rw [hs'] at this
            exact absurd this (by simp)
      rw [registerHit_miss hhit' hs']
      refine ⟨?_, ?_, ?_, ?_, ?_⟩
      · intro j i
        obtain ⟨e1, e2⟩ := updateCell_hit_static b x y j i
        rw [e1, e2]
        exact hinv.idOcc j i
      · intro j i s hsome
        rw [(updateCell_hit_static b x y j i).2] at hsome
        exact hinv.idPos j i s hsome
      · intro j i s hsome
        rw [(updateCell_hit_static b x y j i).2] at hsome
        exact hinv.idRef j i s hsome
      · intro sh hm
        rw [firedShipCount_update_none b x y hx hy hnone sh.id]
        exact hinv.hitsEq sh hm
      · intro sh hm
        rw [shipCellCount_update_hit b x y hx hy sh.id]
        exact hinv.sizeEq sh hm

/-- `SInv` entails the data-model invariants of the specification. -/
theorem SInv_DataInv {b : Board} {ships : List Ship} (hinv : SInv b ships) :
    DataInv b ships := by
  refine ⟨hinv.idOcc, fun sh hm => ?_⟩
  rw [hinv.hitsEq sh hm, ← hinv.sizeEq sh hm]
  exact firedShipCount_le b sh.id

/-- The placement invariant entails the play invariant. -/
theorem PInv_SInv {b : Board} {ships : List Ship} {sid : Nat} (hinv : PInv b ships sid) :
    SInv b ships := by
  refine ⟨hinv.idOcc, ?_, hinv.idRef, ?_, hinv.sizeCount⟩
  · intro j i s hsome
    obtain ⟨sh, hm, hid⟩ := hinv.idRef j i s hsome
    have := (hinv.shipsLt sh hm).1
    omega
  · intro sh hm
    rw [hinv.hits0 sh hm, firedShipCount_of_unfired sh.id hinv.unfired]

/-! ### Turn-machine lemmas -/

theorem playerFire_gameOver {s : GameState} {w : Winner} (hw : s.gameOver = some w)
    (x y : Nat) : playerFire s x y = s := by
  rw [playerFire, if_pos]
  rw [hw]
  simp

theorem playerFire_notTurn {s : GameState} (ht : s.playerTurn = false) (x y : Nat) :
    playerFire s x y = s := by
  rw [playerFire, if_pos]
  rw [ht]
  simp

theorem playerFire_win {s : GameState} {x y : Nat}
    (hlive : s.gameOver = none) (hturn : s.playerTurn = true)
    (hwin : checkWin (registerHit s.cpuBoard s.cpuShips x y).2.1 = true) :
    playerFire s x y =
      { s with
        cpuBoard := (registerHit s.cpuBoard s.cpuShips x y).1
        cpuShips := (registerHit s.cpuBoard s.cpuShips x y).2.1
        gameOver := some Winner.player } := by
  rw [playerFire, if_neg (by rw [hlive, hturn]; simp)]
  rw [if_pos hwin]

theorem playerFire_miss {s : GameState} {x y : Nat}
    (hlive : s.gameOver = none) (hturn : s.playerTurn = true)
    (hwin : checkWin (registerHit s.cpuBoard s.cpuShips x y).2.1 = false)
    (hres : (registerHit s.cpuBoard s.cpuShips x y).2.2 = ShotResult.miss) :
    playerFire s x y =
      { s with
        cpuBoard := (registerHit s.cpuBoard s.cpuShips x y).1
        cpuShips := (registerHit s.cpuBoard s.cpuShips x y).2.1
        playerTurn := false } := by
  rw [playerFire, if_neg (by rw [hlive, hturn]; simp)]
  rw [if_neg (by rw [hwin]; exact Bool.false_ne_true), if_pos hres]

theorem playerFire_keep {s : GameState} {x y : Nat}
    (hlive : s.gameOver = none) (hturn : s.playerTurn = true)
    (hwin : checkWin (registerHit s.cpuBoard s.cpuShips x y).2.1 = false)
    (hres : (registerHit s.cpuBoard s.cpuShips x y).2.2 ≠ ShotResult.miss) :
    playerFire s x y =
      { s with
        cpuBoard := (registerHit s.cpuBoard s.cpuShips x y).1
        cpuShips := (registerHit s.cpuBoard s.cpuShips x y).2.1
        playerTurn := true } := by
  rw [playerFire, if_neg (by rw [hlive, hturn]; simp)]
  rw [if_neg (by rw [hwin]; exact Bool.false_ne_true), if_neg hres]

theorem cpuFire_gameOver {s : GameState} {w : Winner} (hw : s.gameOver = some w)
    (r : Nat) : cpuFire s r = s := by
  rw [cpuFire, if_pos]
  rw [hw]
  simp

theorem cpuFire_pick_facts {s : GameState} (r : Nat)
    (hcand : candidates s.playerBoard ≠ []) :
    ((candidates s.playerBoard).getD (r % (candidates s.playerBoard).length) (0, 0)) ∈
      candidates s.playerBoard := by
  have hlt : r % (candidates s.playerBoard).length < (candidates s.playerBoard).length :=
    Nat.mod_lt _ (List.length_pos.mpr hcand)
  rw [List.getD_eq_getElem _ _ hlt]
  exact List.getElem_mem hlt

theorem cpuFire_win {s : GameState} {r : Nat}
    (hlive : s.gameOver = none) (hcand : candidates s.playerBoard ≠ [])
    (hwin : checkWin (registerHit s.playerBoard s.playerShips
      ((candidates s.playerBoard).getD (r % (candidates s.playerBoard).length) (0, 0)).1
      ((candidates s.playerBoard).getD (r % (candidates s.playerBoard).length) (0, 0)).2).2.1 = true) :
    cpuFire s r =
      { s with
        playerBoard := (registerHit s.playerBoard s.playerShips
          ((candidates s.playerBoard).getD (r % (candidates s.playerBoard).length) (0, 0)).1
          ((candidates s.playerBoard).getD (r % (candidates s.playerBoard).length) (0, 0)).2).1
        playerShips := (registerHit s.playerBoard s.playerShips
          ((candidates s.playerBoard).getD (r % (candidates s.playerBoard).length) (0, 0)).1
          ((candidates s.playerBoard).getD (r % (candidates s.playerBoard).length) (0, 0)).2).2.1
        gameOver := some Winner.cpu } := by
  rw [cpuFire, if_neg (by rw [hlive]; simp)]
  rw [if_neg (by simp [hcand])]
  rw [if_pos hwin]

theorem cpuFire_miss {s : GameState} {r : Nat}
    (hlive : s.gameOver = none) (hcand : candidates s.playerBoard ≠ [])
    (hwin : checkWin (registerHit s.playerBoard s.playerShips
      ((candidates s.playerBoard).getD (r % (candidates s.playerBoard).length) (0, 0)).1
      ((candidates s.playerBoard).getD (r % (candidates s.playerBoard).length) (0, 0)).2).2.1 = false)
    (hres : (registerHit s.playerBoard s.playerShips
      ((candidates s.playerBoard).getD (r % (candidates s.playerBoard).length) (0, 0)).1
      ((candidates s.playerBoard).getD (r % (candidates s.playerBoard).length) (0, 0)).2).2.2 =
      ShotResult.miss) :
    cpuFire s r =
      { s with
        playerBoard := (registerHit s.playerBoard s.playerShips
          ((candidates s.playerBoard).getD (r % (candidates s.playerBoard).length) (0, 0)).1
          ((candidates s.playerBoard).getD (r % (candidates s.playerBoard).length) (0, 0)).2).1
        playerShips := (registerHit s.playerBoard s.playerShips
          ((candidates s.playerBoard).getD (r % (candidates s.playerBoard).length) (0, 0)).1
          ((candidates s.playerBoard).getD (r % (candidates s.playerBoard).length) (0, 0)).2).2.1
        playerTurn := true } := by
  rw [cpuFire, if_neg (by rw [hlive]; simp)]
  rw [if_neg (by simp [hcand])]
  rw [if_neg (by rw [hwin]; exact Bool.false_ne_true), if_pos hres]

theorem cpuFire_keep {s : GameState} {r : Nat}
    (hlive : s.gameOver = none) (hcand : candidates s.playerBoard ≠ [])
    (hwin : checkWin (registerHit s.playerBoard s.playerShips
      ((candidates s.playerBoard).getD (r % (candidates s.playerBoard).length) (0, 0)).1
      ((candidates s.playerBoard).getD (r % (candidates s.playerBoard).length) (0, 0)).2).2.1 = false)
    (hres : (registerHit s.playerBoard s.playerShips
      ((candidates s.playerBoard).getD (r % (candidates s.playerBoard).length) (0, 0)).1
      ((candidates s.playerBoard).getD (r % (candidates s.playerBoard).length) (0, 0)).2).2.2 ≠
      ShotResult.miss) :
    cpuFire s r =
      { s with
        playerBoard := (registerHit s.playerBoard s.playerShips
          ((candidates s.playerBoard).getD (r % (candidates s.playerBoard).length) (0, 0)).1
          ((candidates s.playerBoard).getD (r % (candidates s.playerBoard).length) (0, 0)).2).1
        playerShips := (registerHit s.playerBoard s.playerShips
          ((candidates s.playerBoard).getD (r % (candidates s.playerBoard).length) (0, 0)).1
          ((candidates s.playerBoard).getD (r % (candidates s.playerBoard).length) (0, 0)).2).2.1
        playerTurn := false } := by
  rw [cpuFire, if_neg (by rw [hlive]; simp)]
  rw [if_neg (by simp [hcand])]
  rw [if_neg (by rw [hwin]; exact Bool.false_ne_true), if_neg hres]

theorem mem_occupiedCoords {b : Board} {c : Nat × Nat} :
    c ∈ occupiedCoords b ↔ c.1 < 10 ∧ c.2 < 10 ∧ (b c.2 c.1).hasShip = true := by
  obtain ⟨cx, cy⟩ := c
  show (cx, cy) ∈ occupiedCoords b ↔ cx < 10 ∧ cy < 10 ∧ (b cy cx).hasShip = true
  constructor
  · intro hmem
    rw [occupiedCoords, List.mem_flatMap] at hmem
    obtain ⟨y, hy, hmem⟩ := hmem
    rw [List.mem_filterMap] at hmem
    obtain ⟨x, hx, heq⟩ := hmem
    by_cases hocc : (b y x).hasShip = true
    · rw [if_pos hocc] at heq
      injection heq with h1
      obtain ⟨rfl, rfl⟩ := Prod.mk.injEq .. ▸ Prod.mk.inj h1
      exact ⟨by simpa [BOARD_SIZE] using List.mem_range.mp hx,
        by simpa [BOARD_SIZE] using List.mem_range.mp hy, hocc⟩
    · rw [if_neg hocc] at heq
      exact absurd heq (by simp)
  · rintro ⟨hx, hy, hocc⟩
    rw [occupiedCoords, List.mem_flatMap]
    refine ⟨cy, List.mem_range.mpr (by simpa [BOARD_SIZE] using hy), ?_⟩
    rw [List.mem_filterMap]
    exact ⟨cx, List.mem_range.mpr (by simpa [BOARD_SIZE] using hx), by rw [if_pos hocc]⟩

theorem checkWin_false_elim {ships : List Ship} (h : checkWin ships = false) :
    ∃ sh ∈ ships, sh.hits < sh.size := by
  rw [checkWin] at h
  by_cases hall : ∀ sh ∈ ships, sh.size ≤ sh.hits
  · rw [List.all_eq_true.mpr (fun sh hm => by simpa using hall sh hm)] at h
    exact absurd h (by simp)
  · push_neg at hall
    obtain ⟨sh, hm, hlt⟩ := hall
    exact ⟨sh, hm, by omega⟩

/-- Once every occupied cell is hit, the linked fleet is fully sunk. -/
theorem checkWin_of_all_fired {b : Board} {ships : List Ship} (hinv : SInv b ships)
    (hall : ∀ j i, j < 10 → i < 10 → (b j i).hasShip = true → (b j i).hit = true) :
    checkWin ships = true := by
  cases hcw : checkWin ships
  · obtain ⟨sh, hm, hlt⟩ := checkWin_false_elim hcw
    have h1 : sh.hits = firedShipCount b sh.id := hinv.hitsEq sh hm
    have h2 : shipCellCount b sh.id = sh.size := hinv.sizeEq sh hm
    have hle : shipCellCount b sh.id ≤ firedShipCount b sh.id := by
      refine gridSum_le fun j i hj hi => ?_
      by_cases hc : (b j i).shipId = some sh.id
      · have hocc : (b j i).hasShip = true := (hinv.idOcc j i).mpr ⟨sh.id, hc⟩
        have hhit := hall j i hj hi hocc
        rw [if_pos hc, if_pos ⟨hc, hhit⟩]
      · rw [if_neg hc, if_neg (fun hcc => hc hcc.1)]
    omega
  · rfl

/-- One step of the C6 induction: firing at an occupied board cell preserves
the firing invariant. -/
theorem FInv_step {b0 : Board} {s : GameState} {processed : List (Nat × Nat)}
    (hinv : FInv b0 s processed) {c : Nat × Nat}
    (hc1 : c.1 < 10) (hc2 : c.2 < 10) (hocc : (b0 c.2 c.1).hasShip = true) :
    FInv b0 (playerFire s c.1 c.2) (processed ++ [c]) := by
  rcases hinv.phase with ⟨hover, hwin⟩ | ⟨hover, hturn, hwin, hproc⟩
  · rw [playerFire_gameOver hover]
    exact ⟨hinv.sinv, hinv.staticEq, Or.inl ⟨hover, hwin⟩⟩
  · have hsinv := hinv.sinv
    have hocc' : (s.cpuBoard c.2 c.1).hasShip = true := by
      rw [(hinv.staticEq c.2 c.1).1]
      exact hocc
    have hsinv' : SInv (registerHit s.cpuBoard s.cpuShips c.1 c.2).1
        (registerHit s.cpuBoard s.cpuShips c.1 c.2).2.1 := SInv_registerHit hsinv hc1 hc2
    have hstat' : ∀ j i,
        ((registerHit s.cpuBoard s.cpuShips c.1 c.2).1 j i).hasShip = (b0 j i).hasShip ∧
        ((registerHit s.cpuBoard s.cpuShips c.1 c.2).1 j i).shipId = (b0 j i).shipId := by
      intro j i
      obtain ⟨e1, e2⟩ := registerHit_static s.cpuBoard s.cpuShips c.1 c.2 j i
      obtain ⟨f1, f2⟩ := hinv.staticEq j i
      exact ⟨by rw [e1, f1], by rw [e2, f2]⟩
    have hresne : (registerHit s.cpuBoard s.cpuShips c.1 c.2).2.2 ≠ ShotResult.miss := by
      by_cases hhit : (s.cpuBoard c.2 c.1).hit = true
      · rw [registerHit_repeat hhit]
        simp
      · have hhit' : (s.cpuBoard c.2 c.1).hit = false := by
          cases hcc : (s.cpuBoard c.2 c.1).hit
          · rfl
          · exact absurd hcc hhit
        obtain ⟨sid, u, hsid, h0, hget, huid⟩ := SInv_occupied_cell hsinv hocc'
        rw [registerHit_hit hhit' hocc' hsid h0 hget]
        split <;> simp
    have hfired : ((registerHit s.cpuBoard s.cpuShips c.1 c.2).1 c.2 c.1).hit = true :=
      registerHit_fires s.cpuBoard s.cpuShips c.1 c.2
    have hmono := registerHit_mono s.cpuBoard s.cpuShips c.1 c.2
    by_cases hw : checkWin (registerHit s.cpuBoard s.cpuShips c.1 c.2).2.1 = true
    · rw [playerFire_win hover hturn hw]
      exact ⟨hsinv', hstat', Or.inl ⟨rfl, hw⟩⟩
    · have hw' : checkWin (registerHit s.cpuBoard s.cpuShips c.1 c.2).2.1 = false := by
        cases hcc : checkWin (registerHit s.cpuBoard s.cpuShips c.1 c.2).2.1
        · rfl
        · exact absurd hcc hw
      rw [playerFire_keep hover hturn hw' hresne]
      refine ⟨hsinv', hstat', Or.inr ⟨hover, rfl, hw', ?_⟩⟩
      intro c' hc'
      rcases List.mem_append.mp hc' with hc' | hc'
      · exact hmono _ _ (hproc c' hc')
      · have hcc : c' = c := by simpa using hc'
        rw [hcc]
        exact hfired

/-- The C6 induction over a whole shot list. -/
theorem FInv_fireAll {b0 : Board} :
    ∀ (l : List (Nat × Nat)) (s : GameState) (processed : List (Nat × Nat)),
      FInv b0 s processed →
      (∀ c ∈ l, c.1 < 10 ∧ c.2 < 10 ∧ (b0 c.2 c.1).hasShip = true) →
      FInv b0 (fireAll s l) (processed ++ l) := by
  intro l
  induction l with
  | nil =>
      intro s processed hinv _
      simpa [fireAll] using hinv
  | cons c l ih =>
      intro s processed hinv hl
      have h1 := hl c (by simp)
      have hstep := FInv_step hinv h1.1 h1.2.1 h1.2.2
      have hrec := ih (playerFire s c.1 c.2) (processed ++ [c]) hstep
        (fun c' hc' => hl c' (by simp [hc']))
      have he : fireAll s (c :: l) = fireAll (playerFire s c.1 c.2) l := rfl
      rw [he]
      have he2 : processed ++ c :: l = (processed ++ [c]) ++ l := by simp
      rw [he2]
      exact hrec

theorem mem_candidates {b : Board} {c : Nat × Nat} :
    c ∈ candidates b ↔ c.1 < 10 ∧ c.2 < 10 ∧ (b c.2 c.1).hit = false := by
  obtain ⟨cx, cy⟩ := c
  show (cx, cy) ∈ candidates b ↔ cx < 10 ∧ cy < 10 ∧ (b cy cx).hit = false
  constructor
  · intro hmem
    rw [candidates, List.mem_flatMap] at hmem
    obtain ⟨y, hy, hmem⟩ := hmem
    rw [List.mem_filterMap] at hmem
    obtain ⟨x, hx, heq⟩ := hmem
    by_cases hhit : (b y x).hit = true
    · rw [if_pos hhit] at heq
      exact absurd heq (by simp)
    · have hhit' : (b y x).hit = false := by
        cases hcc : (b y x).hit
        · rfl
        · exact absurd hcc hhit
      rw [if_neg (by rw [hhit']; simp)] at heq
      injection heq with h1
      obtain ⟨rfl, rfl⟩ := Prod.mk.injEq .. ▸ Prod.mk.inj h1
      exact ⟨by simpa [BOARD_SIZE] using List.mem_range.mp hx,
        by simpa [BOARD_SIZE] using List.mem_range.mp hy, hhit'⟩
  · rintro ⟨hx, hy, hhit⟩
    rw [candidates, List.mem_flatMap]
    refine ⟨cy, List.mem_range.mpr (by simpa [BOARD_SIZE] using hy), ?_⟩
    rw [List.mem_filterMap]
    exact ⟨cx, List.mem_range.mpr (by simpa [BOARD_SIZE] using hx),
      by rw [if_neg (by rw [hhit]; simp)]⟩

/-- Whatever the branch, `playerFire` either leaves the CPU pair alone or
installs exactly the resolver's outputs. -/
theorem playerFire_components (s : GameState) (x y : Nat) :
    ((playerFire s x y).cpuBoard = s.cpuBoard ∧ (playerFire s x y).cpuShips = s.cpuShips) ∨
    ((playerFire s x y).cpuBoard = (registerHit s.cpuBoard s.cpuShips x y).1 ∧
      (playerFire s x y).cpuShips = (registerHit s.cpuBoard s.cpuShips x y).2.1) := by
  cases hg : s.gameOver with
  | some w =>
      rw [playerFire_gameOver hg]
      left
      exact ⟨rfl, rfl⟩
  | none =>
      cases ht : s.playerTurn with
      | false =>
          rw [playerFire_notTurn ht]
          left
          exact ⟨rfl, rfl⟩
      | true =>
          right
          by_cases hw : checkWin (registerHit s.cpuBoard s.cpuShips x y).2.1 = true
          · rw [playerFire_win hg ht hw]
            exact ⟨rfl, rfl⟩
          · have hw' : checkWin (registerHit s.cpuBoard s.cpuShips x y).2.1 = false := by
              cases hcc : checkWin (registerHit s.cpuBoard s.cpuShips x y).2.1
              · rfl
              · exact absurd hcc hw
            by_cases hr : (registerHit s.cpuBoard s.cpuShips x y).2.2 = ShotResult.miss
            · rw [playerFire_miss hg ht hw' hr]
              exact ⟨rfl, rfl⟩
            · rw [playerFire_keep hg ht hw' hr]
              exact ⟨rfl, rfl⟩

/-- Whatever the branch, `cpuFire` either leaves the player pair alone or
installs the resolver's outputs at some in-bounds picked cell. -/
theorem cpuFire_components (s : GameState) (r : Nat) :
    ((cpuFire s r).playerBoard = s.playerBoard ∧ (cpuFire s r).playerShips = s.playerShips) ∨
    (∃ px py, px < 10 ∧ py < 10 ∧
      (cpuFire s r).playerBoard = (registerHit s.playerBoard s.playerShips px py).1 ∧
      (cpuFire s r).playerShips = (registerHit s.playerBoard s.playerShips px py).2.1) := by
  cases hg : s.gameOver with
  | some w =>
      rw [cpuFire_gameOver hg]
      left
      exact ⟨rfl, rfl⟩
  | none =>
      by_cases hne : candidates s.playerBoard = []
      · have hid : cpuFire s r = s := by
          rw [cpuFire, if_neg (by rw [hg]; simp), if_pos (by rw [hne]; rfl)]
        rw [hid]
        left
        exact ⟨rfl, rfl⟩
      · right
        have hmem := cpuFire_pick_facts r hne
        have hb := mem_candidates.mp hmem
        refine ⟨_, _, hb.1, hb.2.1, ?_⟩
        by_cases hw : checkWin (registerHit s.playerBoard s.playerShips
            ((candidates s.playerBoard).getD (r % (candidates s.playerBoard).length) (0, 0)).1
            ((candidates s.playerBoard).getD (r % (candidates s.playerBoard).length) (0, 0)).2).2.1 = true
        · rw [cpuFire_win hg hne hw]
          exact ⟨rfl, rfl⟩
        · have hw' : checkWin (registerHit s.playerBoard s.playerShips
              ((candidates s.playerBoard).getD (r % (candidates s.playerBoard).length) (0, 0)).1
              ((candidates s.playerBoard).getD (r % (candidates s.playerBoard).length) (0, 0)).2).2.1 = false := by
            cases hcc : checkWin (registerHit s.playerBoard s.playerShips
              ((candidates s.playerBoard).getD (r % (candidates s.playerBoard).length) (0, 0)).1
              ((candidates s.playerBoard).getD (r % (candidates s.playerBoard).length) (0, 0)).2).2.1
            · rfl
            · exact absurd hcc hw
          by_cases hr : (registerHit s.playerBoard s.playerShips
              ((candidates s.playerBoard).getD (r % (candidates s.playerBoard).length) (0, 0)).1
              ((candidates s.playerBoard).getD (r % (candidates s.playerBoard).length) (0, 0)).2).2.2 =
              ShotResult.miss
          · rw [cpuFire_miss hg hne hw' hr]
            exact ⟨rfl, rfl⟩
          · rw [cpuFire_keep hg hne hw' hr]
            exact ⟨rfl, rfl⟩

/-! ### Claim theorems -/

/-- C2: resolving a shot at an in-bounds, not-yet-fired cell marks the cell
fired; an unoccupied cell yields `miss` with the fleet unchanged; an occupied
cell increments the referenced ship's hit counter in the returned fleet, and
the outcome is `sunk` exactly when the new count equals the ship's length,
otherwise `hit`. -/
theorem c2_shot_resolution (b : Board) (fl : List Ship) (x y : Nat)
    (hx : x < 10) (hy : y < 10) (hunf : (b y x).hit = false) :
    (((registerHit b fl x y).1 y x).hit = true) ∧
    ((b y x).hasShip = false →
      (registerHit b fl x y).2.2 = ShotResult.miss ∧ (registerHit b fl x y).2.1 = fl) ∧
    (∀ sid s, (b y x).hasShip = true → (b y x).shipId = some sid → sid ≠ 0 →
      fleetGet fl sid = some s → s.hits < s.size →
      fleetGet (registerHit b fl x y).2.1 sid = some { s with hits := s.hits + 1 } ∧
      (registerHit b fl x y).2.2 =
        (if s.hits + 1 = s.size then ShotResult.sunk else ShotResult.hit)) := by
  refine ⟨registerHit_fires b fl x y, ?_, ?_⟩
  · intro hns
    rw [registerHit_miss hunf hns]
    exact ⟨rfl, rfl⟩
  · intro sid s hs hsid h0 hget hlt
    rw [registerHit_hit hunf hs hsid h0 hget]
    have e : ({ s with hits := s.hits + 1 } : Ship).id = sid := (fleetGet_mem hget).2
    constructor
    · have hmap := fleetSet_eq_map { s with hits := s.hits + 1 } (by rw [e]; exact hget)
      show fleetGet (fleetSet fl { s with hits := s.hits + 1 }) sid = _
      rw [hmap]
      exact fleetGet_map_self { s with hits := s.hits + 1 } sid e fl s hget
    · show (if s.size ≤ s.hits + 1 then ShotResult.sunk else ShotResult.hit) = _
      by_cases heq : s.hits + 1 = s.size
      · rw [if_pos (by omega), if_pos heq]
      · rw [if_neg (by omega), if_neg heq]

/-- C2 witness: firing at the occupied cell (0,0) of the `gW` board increments
ship 1 from 0 to 1 hit. -/
theorem c2_witness :
    (bW 0 0).hit = false ∧
    fleetGet (registerHit bW flW 0 0).2.1 1 = some { id := 1, size := 4, hits := 1 } := by
  refine ⟨by decide, ?_⟩
  have h := (c2_shot_resolution bW flW 0 0 (by decide) (by decide) (by decide)).2.2
    1 ⟨1, 4, 0⟩ (by decide) (by decide) (by decide) (by decide) (by decide)
  exact h.1

/-- C3: resolving a shot at an already-fired in-bounds cell returns `repeat`
and the exact input board and fleet values. -/
theorem c3_repeat_idempotent (b : Board) (fl : List Ship) (x y : Nat)
    (hx : x < 10) (hy : y < 10) (hfired : (b y x).hit = true) :
    registerHit b fl x y = (b, fl, ShotResult.repeatShot) :=
  registerHit_repeat hfired

/-- C3 witness: firing twice at (0,0) — the second resolution is a `repeat`
no-op on the updated board. -/
theorem c3_witness :
    ((registerHit bW flW 0 0).1 0 0).hit = true ∧
    registerHit (registerHit bW flW 0 0).1 (registerHit bW flW 0 0).2.1 0 0 =
      ((registerHit bW flW 0 0).1, (registerHit bW flW 0 0).2.1, ShotResult.repeatShot) :=
  ⟨registerHit_fires bW flW 0 0,
    c3_repeat_idempotent (registerHit bW flW 0 0).1 (registerHit bW flW 0 0).2.1 0 0
      (by decide) (by decide) (registerHit_fires bW flW 0 0)⟩

/-- C8: a shot at an unfired in-bounds cell changes no other board cell (the
input board value itself is untouched — the resolver returns a fresh value),
leaves the fleet unchanged when the cell is unoccupied, and when occupied
changes exactly the referenced ship record and no other. -/
theorem c8_frame (b : Board) (fl : List Ship) (x y : Nat)
    (hx : x < 10) (hy : y < 10) (hunf : (b y x).hit = false) :
    (∀ i j, ¬(i = x ∧ j = y) → (registerHit b fl x y).1 j i = b j i) ∧
    ((b y x).hasShip = false → (registerHit b fl x y).2.1 = fl) ∧
    (∀ sid s, (b y x).hasShip = true → (b y x).shipId = some sid → sid ≠ 0 →
      fleetGet fl sid = some s →
      (∀ q, q ≠ sid → fleetGet (registerHit b fl x y).2.1 q = fleetGet fl q) ∧
      fleetGet (registerHit b fl x y).2.1 sid ≠ fleetGet fl sid) := by
  refine ⟨?_, ?_, ?_⟩
  · intro i j hne
    rw [registerHit_fst hunf]
    exact updateCell_other b x y _ i j (by tauto)
  · intro hns
    rw [registerHit_miss hunf hns]
  · intro sid s hs hsid h0 hget
    rw [registerHit_hit hunf hs hsid h0 hget]
    have e : ({ s with hits := s.hits + 1 } : Ship).id = sid := (fleetGet_mem hget).2
    have hmap := fleetSet_eq_map { s with hits := s.hits + 1 } (by rw [e]; exact hget)
    constructor
    · intro q hq
      show fleetGet (fleetSet fl { s with hits := s.hits + 1 }) q = _
      rw [hmap]
      exact fleetGet_map_other { s with hits := s.hits + 1 } q (by rw [e]; exact hq) fl
    · show fleetGet (fleetSet fl { s with hits := s.hits + 1 }) sid ≠ _
      rw [hmap, fleetGet_map_self { s with hits := s.hits + 1 } sid e fl s hget, hget]
      intro hcon
      injection hcon with hcon
      have : s.hits + 1 = s.hits := congrArg Ship.hits hcon
      omega

/-- C8 witness: the shot at (0,0) leaves cell (5,0) and ship 2 untouched, and
does change ship 1. -/
theorem c8_witness :
    (registerHit bW flW 0 0).1 0 5 = bW 0 5 ∧
    fleetGet (registerHit bW flW 0 0).2.1 2 = fleetGet flW 2 ∧
    fleetGet (registerHit bW flW 0 0).2.1 1 ≠ fleetGet flW 1 := by
  have h := c8_frame bW flW 0 0 (by decide) (by decide) (by decide)
  have h3 := h.2.2 1 ⟨1, 4, 0⟩ (by decide) (by decide) (by decide) (by decide)
  exact ⟨h.1 5 0 (by decide), h3.1 2 (by decide), h3.2⟩

/-- C7: in a finished game both firing entry points return the state
unchanged — no board, fleet, turn or outcome component moves, and the state
stays in game-over. -/
theorem c7_gameover_noop (s : GameState) (w : Winner) (x y r : Nat)
    (hw : s.gameOver = some w) :
    playerFire s x y = s ∧ cpuFire s r = s :=
  ⟨playerFire_gameOver hw x y, cpuFire_gameOver hw r⟩

/-- C7 witness: the finished `gW` game ignores a player shot and a CPU shot. -/
theorem c7_witness : playerFire sDone 3 3 = sDone ∧ cpuFire sDone 7 = sDone :=
  c7_gameover_noop sDone Winner.player 3 3 7 rfl

/-- C4: from a live state, whichever side fires, the win check runs right
after the individual shot and precedes the turn decision: a fully-sunk
defending fleet ends the game in the firer's favour; otherwise a `miss` passes
the turn and any other outcome keeps it.  The player conjuncts assume the
player's turn (the source rejects the shot otherwise); the CPU conjuncts hold
for any turn flag, since `cpuFire` never inspects it. -/
theorem c4_turn_machine (s : GameState) (x y r : Nat)
    (hlive : s.gameOver = none)
    (hcand : candidates s.playerBoard ≠ []) :
    (s.playerTurn = true →
      checkWin (registerHit s.cpuBoard s.cpuShips x y).2.1 = true →
      playerFire s x y =
        { s with
          cpuBoard := (registerHit s.cpuBoard s.cpuShips x y).1
          cpuShips := (registerHit s.cpuBoard s.cpuShips x y).2.1
          gameOver := some Winner.player }) ∧
    (s.playerTurn = true →
      checkWin (registerHit s.cpuBoard s.cpuShips x y).2.1 = false →
      (registerHit s.cpuBoard s.cpuShips x y).2.2 = ShotResult.miss →
      playerFire s x y =
        { s with
          cpuBoard := (registerHit s.cpuBoard s.cpuShips x y).1
          cpuShips := (registerHit s.cpuBoard s.cpuShips x y).2.1
          playerTurn := false }) ∧
    (s.playerTurn = true →
      checkWin (registerHit s.cpuBoard s.cpuShips x y).2.1 = false →
      (registerHit s.cpuBoard s.cpuShips x y).2.2 ≠ ShotResult.miss →
      playerFire s x y =
        { s with
          cpuBoard := (registerHit s.cpuBoard s.cpuShips x y).1
          cpuShips := (registerHit s.cpuBoard s.cpuShips x y).2.1
          playerTurn := true }) ∧
    (checkWin (registerHit s.playerBoard s.playerShips
        ((candidates s.playerBoard).getD (r % (candidates s.playerBoard).length) (0, 0)).1
        ((candidates s.playerBoard).getD (r % (candidates s.playerBoard).length) (0, 0)).2).2.1 = true →
      cpuFire s r =
        { s with
          playerBoard := (registerHit s.playerBoard s.playerShips
            ((candidates s.playerBoard).getD (r % (candidates s.playerBoard).length) (0, 0)).1
            ((candidates s.playerBoard).getD (r % (candidates s.playerBoard).length) (0, 0)).2).1
          playerShips := (registerHit s.playerBoard s.playerShips
            ((candidates s.playerBoard).getD (r % (candidates s.playerBoard).length) (0, 0)).1
            ((candidates s.playerBoard).getD (r % (candidates s.playerBoard).length) (0, 0)).2).2.1
          gameOver := some Winner.cpu }) ∧
    (checkWin (registerHit s.playerBoard s.playerShips
        ((candidates s.playerBoard).getD (r % (candidates s.playerBoard).length) (0, 0)).1
        ((candidates s.playerBoard).getD (r % (candidates s.playerBoard).length) (0, 0)).2).2.1 = false →
      (registerHit s.playerBoard s.playerShips
        ((candidates s.playerBoard).getD (r % (candidates s.playerBoard).length) (0, 0)).1
        ((candidates s.playerBoard).getD (r % (candidates s.playerBoard).length) (0, 0)).2).2.2 =
        ShotResult.miss →
      cpuFire s r =
        { s with
          playerBoard := (registerHit s.playerBoard s.playerShips
            ((candidates s.playerBoard).getD (r % (candidates s.playerBoard).length) (0, 0)).1
            ((candidates s.playerBoard).getD (r % (candidates s.playerBoard).length) (0, 0)).2).1
          playerShips := (registerHit s.playerBoard s.playerShips
            ((candidates s.playerBoard).getD (r % (candidates s.playerBoard).length) (0, 0)).1
            ((candidates s.playerBoard).getD (r % (candidates s.playerBoard).length) (0, 0)).2).2.1
          playerTurn := true }) ∧
    (checkWin (registerHit s.playerBoard s.playerShips
        ((candidates s.playerBoard).getD (r % (candidates s.playerBoard).length) (0, 0)).1
        ((candidates s.playerBoard).getD (r % (candidates s.playerBoard).length) (0, 0)).2).2.1 = false →
      (registerHit s.playerBoard s.playerShips
        ((candidates s.playerBoard).getD (r % (candidates s.playerBoard).length) (0, 0)).1
        ((candidates s.playerBoard).getD (r % (candidates s.playerBoard).length) (0, 0)).2).2.2 ≠
        ShotResult.miss →
      cpuFire s r =
        { s with
          playerBoard := (registerHit s.playerBoard s.playerShips
            ((candidates s.playerBoard).getD (r % (candidates s.playerBoard).length) (0, 0)).1
            ((candidates s.playerBoard).getD (r % (candidates s.playerBoard).length) (0, 0)).2).1
          playerShips := (registerHit s.playerBoard s.playerShips
            ((candidates s.playerBoard).getD (r % (candidates s.playerBoard).length) (0, 0)).1
            ((candidates s.playerBoard).getD (r % (candidates s.playerBoard).length) (0, 0)).2).2.1
          playerTurn := false }) :=
  ⟨fun ht hw => playerFire_win hlive ht hw,
   fun ht hw hr => playerFire_miss hlive ht hw hr,
   fun ht hw hr => playerFire_keep hlive ht hw hr,
   fun hw => cpuFire_win hlive hcand hw,
   fun hw hr => cpuFire_miss hlive hcand hw hr,
   fun hw hr => cpuFire_keep hlive hcand hw hr⟩

/-- C4 witness: in the fresh `gW` game, the player's shot at the occupied cell
(0,0) is a `hit` that is not a win, so the player keeps the turn. -/
theorem c4_witness :
    checkWin (registerHit sW.cpuBoard sW.cpuShips 0 0).2.1 = false ∧
    (registerHit sW.cpuBoard sW.cpuShips 0 0).2.2 ≠ ShotResult.miss ∧
    playerFire sW 0 0 =
      { sW with
        cpuBoard := (registerHit sW.cpuBoard sW.cpuShips 0 0).1
        cpuShips := (registerHit sW.cpuBoard sW.cpuShips 0 0).2.1
        playerTurn := true } :=
  ⟨by decide, by decide,
    (c4_turn_machine sW 0 0 0 rfl (by decide)).2.2.1 rfl (by decide) (by decide)⟩

/-- C10: the fleet-destroyed predicate is vacuously true on an empty ship map,
so a side whose fleet ended up with zero placed ships — and therefore with no
occupied cell on its board, since placement writes cells and ship records
together — is treated as fully destroyed: the first resolved shot against it
ends the game in the shooter's favour. -/
theorem c10_empty_fleet (s : GameState) (x y : Nat)
    (hlive : s.gameOver = none) (hturn : s.playerTurn = true) (hfl : s.cpuShips = [])
    (hempty : ∀ j i, (s.cpuBoard j i).hasShip = false) :
    checkWin [] = true ∧ (playerFire s x y).gameOver = some Winner.player := by
  refine ⟨rfl, ?_⟩
  have hwin : checkWin (registerHit s.cpuBoard s.cpuShips x y).2.1 = true := by
    by_cases hhit : (s.cpuBoard y x).hit = true
    · rw [registerHit_repeat hhit, hfl]
      rfl
    · have hhit' : (s.cpuBoard y x).hit = false := by
        cases hcc : (s.cpuBoard y x).hit
        · rfl
        · exact absurd hcc hhit
      rw [registerHit_miss hhit' (hempty y x), hfl]
      rfl
  rw [playerFire_win hlive hturn hwin]

/-- C10 witness: the first shot against an empty CPU fleet on its empty board
ends the game for the player. -/
theorem c10_witness :
    checkWin [] = true ∧ (playerFire sEmptyFleet 0 0).gameOver = some Winner.player :=
  c10_empty_fleet sEmptyFleet 0 0 rfl rfl rfl (fun _ _ => rfl)

/-- A ship whose every attempt fails is skipped after its 500-attempt budget. -/
theorem go_skip {g : Nat → Bool × Nat × Nat} {b : Board} {ships : List Ship} {sid k : Nat}
    {size : Nat} {rest : List Nat}
    (hfail : ∀ k', canPlaceShip b (drawX g k' size) (drawY g k' size) size (drawH g k') = false) :
    placeShipsGo g (size :: rest) b ships sid k = placeShipsGo g rest b ships sid (k + 500) := by
  rw [placeShipsGo, tryPlace_none hfail 500 k]

/-- Under the adversarial stream `gBad`, every later placement proposal
collides with the first ship. -/
theorem gBad_fail :
    ∀ size, size ∈ ([3, 2, 1] : List Nat) → ∀ k,
      canPlaceShip (placeCells createEmptyBoard 0 0 true 1 4)
        (drawX gBad k size) (drawY gBad k size) size (drawH gBad k) = false := by
  intro size hsize k
  fin_cases hsize
  · show canPlaceShip (placeCells createEmptyBoard 0 0 true 1 4) 0 0 3 true = false
    decide
  · show canPlaceShip (placeCells createEmptyBoard 0 0 true 1 4) 0 0 2 true = false
    decide
  · show canPlaceShip (placeCells createEmptyBoard 0 0 true 1 4) 0 0 1 true = false
    decide

/-- The adversarial stream produces a fleet with a single ship. -/
theorem gBad_fleet : (placeShipsRandomly gBad).2 = [⟨1, 4, 0⟩] := by
  have hcan : canPlaceShip createEmptyBoard (drawX gBad 0 4) (drawY gBad 0 4) 4 (drawH gBad 0)
      = true := by decide
  have htp : tryPlace gBad createEmptyBoard 4 1 0 500 =
      (some (placeCells createEmptyBoard (drawX gBad 0 4) (drawY gBad 0 4) (drawH gBad 0) 1 4),
        1) := tryPlace_succ 499 hcan
  have h1 : placeShipsRandomly gBad =
      placeShipsGo gBad [3, 3, 2, 2, 2, 1, 1, 1, 1]
        (placeCells createEmptyBoard 0 0 true 1 4) [⟨1, 4, 0⟩] 2 1 := by
    show placeShipsGo gBad (4 :: [3, 3, 2, 2, 2, 1, 1, 1, 1]) createEmptyBoard [] 1 0 = _
    rw [placeShipsGo, htp]
    rfl
  rw [h1]
  rw [go_skip (gBad_fail 3 (by simp)), go_skip (gBad_fail 3 (by simp)),
    go_skip (gBad_fail 2 (by simp)), go_skip (gBad_fail 2 (by simp)),
    go_skip (gBad_fail 2 (by simp)), go_skip (gBad_fail 1 (by simp)),
    go_skip (gBad_fail 1 (by simp)), go_skip (gBad_fail 1 (by simp)),
    go_skip (gBad_fail 1 (by simp))]
  rfl

/-- C1 counterexample: the claim fails on two counts.  The draw stream `gBad`
makes every placement after the first ship exhaust its 500-attempt budget, so
only 1 of the 10 ships is placed; and even a fully placed fleet (stream `gW`)
occupies 20 cells — the sizes `[4,3,3,2,2,2,1,1,1,1]` sum to 20, not 19. -/
theorem c1_counterexample :
    ((placeShipsRandomly gBad).2).length = 1 ∧
    occupiedCount (placeShipsRandomly gW).1 = 20 ∧
    ¬(∀ g : Nat → Bool × Nat × Nat,
        ((placeShipsRandomly g).2).length = 10 ∧
        occupiedCount (placeShipsRandomly g).1 = 19) := by
  refine ⟨by rw [gBad_fleet]; rfl, by decide, ?_⟩
  intro hall
  have h := (hall gBad).1
  rw [gBad_fleet] at h
  exact absurd h (by decide)

/-- C1 (amended): whenever the generator returns its full complement of 10
ships — equivalently, whenever no ship exhausts its 500-attempt budget — the
ship lengths are exactly `[4,3,3,2,2,2,1,1,1,1]` and the board has exactly 20
occupied cells. -/
theorem c1_fleet_composition (g : Nat → Bool × Nat × Nat)
    (hlen : ((placeShipsRandomly g).2).length = 10) :
    ((placeShipsRandomly g).2).map Ship.size = SHIP_SIZES ∧
    occupiedCount (placeShipsRandomly g).1 = 20 := by
  obtain ⟨t, sid', hsub, hmap, hsid', hinv⟩ := placeShips_spec g
  have hlent : t.length = 10 := by
    rw [← hmap, List.length_map]
    exact hlen
  have hteq : t = SHIP_SIZES := hsub.eq_of_length (by rw [hlent]; rfl)
  refine ⟨by rw [hmap, hteq], ?_⟩
  rw [hinv.occCount, hmap, hteq]
  rfl

/-- C1 witness: the stream `gW` places all 10 ships. -/
theorem c1_witness :
    ((placeShipsRandomly gW).2).length = 10 ∧
    ((placeShipsRandomly gW).2).map Ship.size = SHIP_SIZES := by
  refine ⟨by decide, ?_⟩
  exact (c1_fleet_composition gW (by decide)).1

/-- C5: on every generated board, occupied cells belonging to different ships
are at Chebyshev distance at least 2 — in particular two ships never share a
cell. -/
theorem c5_separation (g : Nat → Bool × Nat × Nat) (i j i' j' : Nat)
    (hi : i < 10) (hj : j < 10) (hi' : i' < 10) (hj' : j' < 10)
    (hocc : ((placeShipsRandomly g).1 j i).hasShip = true)
    (hocc' : ((placeShipsRandomly g).1 j' i').hasShip = true)
    (hne : ((placeShipsRandomly g).1 j i).shipId ≠ ((placeShipsRandomly g).1 j' i').shipId) :
    2 ≤ cheb i j i' j' ∧ (i, j) ≠ (i', j') := by
  obtain ⟨t, sid', hsub, hmap, hsid', hinv⟩ := placeShips_spec g
  have hsep := hinv.sep i j i' j' hi hj hi' hj' hocc hocc' hne
  refine ⟨hsep, ?_⟩
  intro heq
  injection heq with h1 h2
  subst h1
  subst h2
  rw [cheb_self] at hsep
  omega

/-- C5 witness: on the `gW` board, cell (0,0) (ship 1) and cell (5,0) (ship 2)
are separated. -/
theorem c5_witness :
    (bW 0 0).hasShip = true ∧ (bW 0 5).hasShip = true ∧
    (bW 0 0).shipId ≠ (bW 0 5).shipId ∧ 2 ≤ cheb 0 0 5 0 :=
  ⟨by decide, by decide, by decide,
    (c5_separation gW 0 0 5 0 (by decide) (by decide) (by decide) (by decide)
      (by decide) (by decide) (by decide)).1⟩

/-- C9: placement establishes the data-model invariants (`shipId` set iff the
cell is occupied, `hitCount ≤ length`), the shot resolver preserves them from
any state satisfying the linking invariant, and the two turn-step entry points
preserve them on both boards; moreover its `fired` flags are monotonic — a
shot never resets one. -/
theorem c9_invariants :
    (∀ g : Nat → Bool × Nat × Nat,
      DataInv (placeShipsRandomly g).1 (placeShipsRandomly g).2) ∧
    (∀ (b : Board) (fl : List Ship) (x y : Nat), x < 10 → y < 10 → SInv b fl →
      DataInv (registerHit b fl x y).1 (registerHit b fl x y).2.1 ∧
      ∀ j i, (b j i).hit = true → ((registerHit b fl x y).1 j i).hit = true) ∧
    (∀ (s : GameState) (x y r : Nat), x < 10 → y < 10 →
      SInv s.cpuBoard s.cpuShips → SInv s.playerBoard s.playerShips →
      (DataInv (playerFire s x y).cpuBoard (playerFire s x y).cpuShips ∧
        ∀ j i, (s.cpuBoard j i).hit = true → ((playerFire s x y).cpuBoard j i).hit = true) ∧
      (DataInv (cpuFire s r).playerBoard (cpuFire s r).playerShips ∧
        ∀ j i, (s.playerBoard j i).hit = true → ((cpuFire s r).playerBoard j i).hit = true)) := by
  refine ⟨?_, ?_, ?_⟩
  · intro g
    obtain ⟨t, sid', hsub, hmap, hsid', hinv⟩ := placeShips_spec g
    exact SInv_DataInv (PInv_SInv hinv)
  · intro b fl x y hx hy hinv
    exact ⟨SInv_DataInv (SInv_registerHit hinv hx hy), registerHit_mono b fl x y⟩
  · intro s x y r hx hy hcpu hplayer
    constructor
    · rcases playerFire_components s x y with ⟨e1, e2⟩ | ⟨e1, e2⟩
      · rw [e1, e2]
        exact ⟨SInv_DataInv hcpu, fun j i hj => hj⟩
      · rw [e1, e2]
        exact ⟨SInv_DataInv (SInv_registerHit hcpu hx hy),
          registerHit_mono s.cpuBoard s.cpuShips x y⟩
    · rcases cpuFire_components s r with ⟨e1, e2⟩ | ⟨px, py, hpx, hpy, e1, e2⟩
      · rw [e1, e2]
        exact ⟨SInv_DataInv hplayer, fun j i hj => hj⟩
      · rw [e1, e2]
        exact ⟨SInv_DataInv (SInv_registerHit hplayer hpx hpy),
          registerHit_mono s.playerBoard s.playerShips px py⟩

/-- C9 witness: the `hitCount ≤ length` invariant holds after firing at (0,0)
of the `gW` fleet both through the resolver and through `playerFire`. -/
theorem c9_witness :
    (∀ sh ∈ (registerHit bW flW 0 0).2.1, sh.hits ≤ sh.size) ∧
    (∀ sh ∈ (playerFire sW 0 0).cpuShips, sh.hits ≤ sh.size) := by
  have hsinv : SInv bW flW := by
    obtain ⟨t, sid', hsub, hmap, hsid', hinv⟩ := placeShips_spec gW
    exact PInv_SInv hinv
  have h := c9_invariants
  refine ⟨(h.2.1 bW flW 0 0 (by decide) (by decide) hsinv).1.2, ?_⟩
  exact ((h.2.2 sW 0 0 0 (by decide) (by decide) hsinv (PInv_SInv PInv_empty)).1).1.2

/-- C6: starting a fresh game against any generated fleet, any sequence of
player shots that covers every occupied cell of that fleet (and hits no other
cell) ends with the fleet-destroyed predicate true and the game over with the
fleet's owner as the loser, whatever the shot order. -/
theorem c6_total_destruction (g : Nat → Bool × Nat × Nat) (shots : List (Nat × Nat))
    (hcov : ∀ c ∈ occupiedCoords (placeShipsRandomly g).1, c ∈ shots)
    (honly : ∀ c ∈ shots, c ∈ occupiedCoords (placeShipsRandomly g).1) :
    checkWin (fireAll (initState (placeShipsRandomly g).1 (placeShipsRandomly g).2)
      shots).cpuShips = true ∧
    (fireAll (initState (placeShipsRandomly g).1 (placeShipsRandomly g).2) shots).gameOver =
      some Winner.player := by
  obtain ⟨t, sid', hsub, hmap, hsid', hinv⟩ := placeShips_spec g
  obtain ⟨rest, hfl⟩ := placeShips_first g
  have hsinv : SInv (placeShipsRandomly g).1 (placeShipsRandomly g).2 := PInv_SInv hinv
  have hinit : FInv (placeShipsRandomly g).1
      (initState (placeShipsRandomly g).1 (placeShipsRandomly g).2) [] := by
    refine ⟨hsinv, fun j i => ⟨rfl, rfl⟩, Or.inr ⟨rfl, rfl, ?_, by simp⟩⟩
    show checkWin (placeShipsRandomly g).2 = false
    rw [hfl]
    exact checkWin_cons_false rest
  have hfold := FInv_fireAll shots
    (initState (placeShipsRandomly g).1 (placeShipsRandomly g).2) [] hinit
    (fun c hc => mem_occupiedCoords.mp (honly c hc))
  rcases hfold.phase with ⟨hover, hwin⟩ | ⟨hover, hturn, hwin, hproc⟩
  · exact ⟨hwin, hover⟩
  · exfalso
    have hall : ∀ j i, j < 10 → i < 10 →
        ((fireAll (initState (placeShipsRandomly g).1 (placeShipsRandomly g).2)
          shots).cpuBoard j i).hasShip = true →
        ((fireAll (initState (placeShipsRandomly g).1 (placeShipsRandomly g).2)
          shots).cpuBoard j i).hit = true := by
      intro j i hj hi hocc
      have hocc0 : ((placeShipsRandomly g).1 j i).hasShip = true := by
        rw [← (hfold.staticEq j i).1]
        exact hocc
      have hmem : (i, j) ∈ occupiedCoords (placeShipsRandomly g).1 :=
        mem_occupiedCoords.mpr ⟨hi, hj, hocc0⟩
      exact hproc (i, j) (by simpa using hcov _ hmem)
    have hcw := checkWin_of_all_fired hfold.sinv hall
    rw [hwin] at hcw
    exact Bool.false_ne_true hcw

/-- C6 witness: firing at all 20 occupied cells of the `gW` fleet in row-major
order ends the game with the player as winner. -/
theorem c6_witness :
    (∀ c ∈ occupiedCoords bW, c ∈ shotsW) ∧
    (∀ c ∈ shotsW, c ∈ occupiedCoords bW) ∧
    (fireAll (initState bW flW) shotsW).gameOver = some Winner.player :=
  ⟨by decide, by decide, (c6_total_destruction gW shotsW (by decide) (by decide)).2⟩
